import Mathlib

/- Verification of the image-warehousing ingestion core: a shallow embedding of
the Go services (AIService, ImageService, StorageService, IndexService,
SearchService, Upload3DHandler) and proofs of the specified properties.

Modelling conventions:
  - Strings are Lean strings; where a Go function walks bytes or runes we walk
    the character list (`String.data`).
  - The filesystem is a partial map from paths to file contents
    (`FS := String → Option String`); `os.Rename` succeeds exactly when the
    source path exists, and directory creation (`os.MkdirAll`) always succeeds.
  - Go `float64` values never drive control flow in the verified code; the only
    use is `fmt.Sprintf` rendering into index text, so the model carries the
    rendered decimal text (for example `fileSizeMB` stands for the
    `%.1f` rendering of `float64(FileSize)/(1024*1024)`).
  - `time.Time` values appear only through their fixed-layout `Format`
    rendering; the model carries that rendered string.
  - Concurrency: the ledger file lock serialises `AppendToIndex`, so a run of
    M concurrent appends is modelled as the M serialized writes in an arbitrary
    order; a worker is a fold over the jobs it dequeues.
-/

/-- Character classifier matching Go `unicode.IsSpace` on the ASCII range
(space, tab, newline, vertical tab, form feed, carriage return). -/
def goIsSpace (c : Char) : Bool :=
  c == ' ' || c == '\t' || c == '\n' || c == '\r' ||
  c == Char.ofNat 11 || c == Char.ofNat 12

/-- Character set kept by `AIService.normalizeCategoryName`: lower-case ASCII
letters, digits, and the hyphen. -/
def isCategoryChar (c : Char) : Bool :=
  ('a' ≤ c && c ≤ 'z') || ('0' ≤ c && c ≤ '9') || c == '-'

/-- AIService.normalizeCategoryName: lower-case the category, replace spaces
with hyphens (`strings.ReplaceAll(category, " ", "-")`), then drop every
character outside `[a-z0-9-]` (`strings.Map` returning -1). -/
def normalizeCategoryName (category : String) : String :=
  let lowered := category.data.map Char.toLower
  let hyphened := lowered.map (fun c => if c == ' ' then '-' else c)
  String.mk (hyphened.filter isCategoryChar)

/-- AIService.GetCategoryPath: returns only the normalized primary category
(flat structure). -/
def GetCategoryPath (primaryCategory : String) : String :=
  normalizeCategoryName primaryCategory

/-- models.ImageType2D. -/
def imageType2D : String := "2D"

/-- models.ImageType3D. -/
def imageType3D : String := "3D"

/-- models.Feature: one AI feature; `confidence2f` carries the `%.2f`
rendering of the `float64` confidence used by `writeAIAnalysis`. -/
structure Feature where
  name : String
  confidence2f : String
deriving DecidableEq, Repr

/-- models.AIAnalysis. String fields as in the Go struct; float/also-unused
fields are carried as their rendered text where they reach the index. -/
structure AIAnalysis where
  typ : String := ""
  description : String := ""
  primaryCategory : String := ""
  subCategory : String := ""
  objects : List String := []
  colors : List String := []
  sceneType : String := ""
  mood : String := ""
  style : String := ""
  lighting : String := ""
  features : List Feature := []
  threeDCharacteristics : String := ""
  symmetry : String := ""
  complexity : String := ""
  rawResponse : String := ""
deriving DecidableEq, Repr

/-- models.Image: the asset record. `uploadedAt` and `processedAt` carry the
`"2006-01-02 15:04:05"` rendering of the Go `time.Time`; `fileSizeMB` and
`totalFileSizeMB` carry the `%.1f` MB renderings used by the index; `views`
lists the Go map entries in iteration order. -/
structure Image where
  id : String := ""
  title : String := ""
  artist : String := ""
  typ : String := ""
  uploadedAt : String := ""
  processedAt : Option String := none
  status : String := ""
  filePath : String := ""
  thumbnailPath : String := ""
  fileSizeMB : String := "0.0"
  width : Int := 0
  height : Int := 0
  folderPath : String := ""
  modelFilePath : String := ""
  modelFilename : String := ""
  views : List (String × String) := []
  totalFileSizeMB : String := "0.0"
  category : String := ""
  manualTags : List String := []
  aiAnalysis : Option AIAnalysis := none
deriving DecidableEq, Repr

/-- models.UploadJob. -/
structure UploadJob where
  imageID : String := ""
  typ : String := ""
  filePath : String := ""
  filePaths : List (String × String) := []
  modelFilePath : String := ""
  modelFilename : String := ""
  title : String := ""
  artist : String := ""
  manualTags : List String := []
deriving DecidableEq, Repr

/-- models.SearchResult; `relevanceScore` (a Go float64 in [0,1]) is carried
as a rational, it never drives control flow. -/
structure SearchResult where
  imageID : String
  relevanceScore : Rat
  reason : String
deriving DecidableEq, Repr

/-- models.SearchResponse. -/
structure SearchResponse where
  results : List SearchResult
  total : Nat
  query : String
deriving DecidableEq, Repr

/-- SearchService.Search: read the whole index, hand it with the query to the
provider (`aiService.SearchImages`), truncate the returned ranked list to the
requested limit when the provider returned more, and report `Total` as the
number of results actually returned. `indexRead` is the outcome of
`indexService.ReadIndex()`, `provider content` the outcome of the AI call. -/
def Search (indexRead : Except String String)
    (provider : String → Except String (List SearchResult))
    (query : String) (limit : Nat) : Except String SearchResponse :=
  match indexRead with
  | .error e => .error ("failed to read index: " ++ e)
  | .ok content =>
    match provider content with
    | .error e => .error ("failed to search with AI: " ++ e)
    | .ok results =>
      let results := if results.length > limit then results.take limit else results
      .ok { results := results, total := results.length, query := query }

/-- Capacity of the bounded job queue: `make(chan *models.UploadJob, 100)` in
`NewImageService`. -/
def jobQueueCapacity : Nat := 100

/-- State of an ImageService: the buffered channel contents and the in-memory
status map guarded by `statusMutex`. -/
structure ImageServiceState where
  jobQueue : List UploadJob
  statusMap : String → Option Image

/-- The initial status record `QueueJob` stores before attempting the send:
status `processing`, metadata copied from the job, everything else zero. -/
def initialStatusRecord (job : UploadJob) (now : String) : Image :=
  { id := job.imageID
    title := job.title
    artist := job.artist
    typ := job.typ
    status := "processing"
    uploadedAt := now
    manualTags := job.manualTags }

/-- ImageService.QueueJob: first records the status entry for the job, then
performs the non-blocking send (`select` with `default`) on the bounded
channel; with no worker currently blocked on a receive the send succeeds
exactly when the buffer has room. -/
def QueueJob (st : ImageServiceState) (job : UploadJob) (now : String) :
    ImageServiceState × Except String Unit :=
  let st1 : ImageServiceState :=
    { st with statusMap := fun k =>
        if k = job.imageID then some (initialStatusRecord job now) else st.statusMap k }
  if st1.jobQueue.length < jobQueueCapacity then
    ({ st1 with jobQueue := st1.jobQueue ++ [job] }, .ok ())
  else
    (st1, .error "job queue is full")

/-- ImageService.updateStatus: if the map has an entry for the image, set its
status; when the new status is `completed` also stamp `ProcessedAt`. -/
def updateStatus (m : String → Option Image) (imageID status now : String) :
    String → Option Image :=
  match m imageID with
  | some img =>
      fun k =>
        if k = imageID then
          some { img with
                  status := status
                  processedAt := if status = "completed" then some now else img.processedAt }
        else m k
  | none => m

/-- ImageService.worker: an unbounded loop dequeuing jobs; `pipeline`
abstracts `process2DJob` / `process3DJob`, returning the completed record the
pipeline stores in the status map on success or the pipeline error. On error
the worker sets status `error`; on success the pipeline has stored the record
and the worker sets status `completed`. One worker processing the listed jobs
in order. -/
def runWorker (pipeline : UploadJob → Except String Image) (now : String) :
    (String → Option Image) → List UploadJob → (String → Option Image)
  | m, [] => m
  | m, job :: rest =>
    let m2 :=
      match pipeline job with
      | .error _ => updateStatus m job.imageID "error" now
      | .ok img =>
          updateStatus (fun k => if k = job.imageID then some img else m k)
            job.imageID "completed" now
    runWorker pipeline now m2 rest

/-- Filesystem model: a partial map from (slash-separated, clean, relative or
absolute) paths to file contents. Directories are implicit: `os.MkdirAll`
always succeeds. -/
def FS := String → Option String

/-- os.Rename in this model: succeeds exactly when the source exists, and
replaces any file previously at the destination. -/
def fsRename (fs : FS) (src dst : String) : Except Unit FS :=
  match fs src with
  | some content =>
      .ok (fun p => if p = dst then some content else if p = src then none else fs p)
  | none => .error ()

/-- Split a character list at every occurrence of the separator (the
char-level counterpart of `strings.Split` on a one-character separator). -/
def splitOnChar (sep : Char) : List Char → List (List Char)
  | [] => [[]]
  | c :: rest =>
    match splitOnChar sep rest with
    | [] => [[c]]
    | h :: t => if c = sep then [] :: h :: t else (c :: h) :: t

/-- Join character lists with the given separator character. -/
def joinWithChar (sep : Char) : List (List Char) → List Char
  | [] => []
  | [l] => l
  | l :: rest => l ++ sep :: joinWithChar sep rest

/-- filepath.Join for the clean slash-separated components the services use. -/
def pathJoin (a b : String) : String := a ++ "/" ++ b

/-- filepath.Base for clean slash paths. -/
def baseName (p : String) : String :=
  String.mk ((splitOnChar '/' p.data).getLastD p.data)

/-- filepath.Ext: the suffix of the final path element starting at its final
dot, empty when the element has no dot. -/
def extName (p : String) : String :=
  let parts := splitOnChar '.' (baseName p).data
  if parts.length ≤ 1 then "" else String.mk ('.' :: parts.getLastD [])

/-- filepath.Dir for clean slash paths. -/
def dirName (p : String) : String :=
  let parts := splitOnChar '/' p.data
  if parts.length ≤ 1 then "." else String.mk (joinWithChar '/' parts.dropLast)

/-- filepath.Rel(base, p) for the case the services rely on: `p` lies under
`base`, so the result strips the `base ++ "/"` prefix (paths here are ASCII,
so character counts agree with Go byte counts). -/
def relPath (base p : String) : String :=
  if (base ++ "/").data.isPrefixOf p.data
  then String.mk (p.data.drop (base.data.length + 1)) else p

/-- StorageService.getThumbnailPath: sibling file named `<name>_thumb.jpg`. -/
def getThumbnailPath (imagePath : String) : String :=
  let dir := dirName imagePath
  let base := baseName imagePath
  let ext := extName base
  let name := String.mk (base.data.take (base.data.length - ext.data.length))
  pathJoin dir (name ++ "_thumb.jpg")

/-- Final path of the primary file placed by `MoveToCategory`. -/
def finalImagePath (dataDir imageID tempPath category : String) : String :=
  pathJoin (pathJoin (pathJoin dataDir "categories") category) (imageID ++ extName tempPath)

/-- Final path of the thumbnail placed by `MoveToCategory`. -/
def finalThumbPath (dataDir imageID category : String) : String :=
  pathJoin (pathJoin (pathJoin dataDir "categories") category) (imageID ++ "_thumb.jpg")

/-- StorageService.MoveToCategory: ensure the category directory, move the
primary image from the staged path to `categories/<category>/<id><ext>`, then
move the staged thumbnail next to it; if the thumbnail move fails after the
primary moved, move the primary back before surfacing the error (the code
ignores the outcome of that compensating rename). Returns the data-dir
relative final paths on success, together with the resulting filesystem. -/
def MoveToCategory (fs : FS) (dataDir imageID tempPath category : String) :
    Except String (String × String) × FS :=
  let newPath := finalImagePath dataDir imageID tempPath category
  let thumbPath := getThumbnailPath tempPath
  let newThumbPath := finalThumbPath dataDir imageID category
  match fsRename fs tempPath newPath with
  | .error _ => (.error "failed to move image", fs)
  | .ok fs1 =>
    match fsRename fs1 thumbPath newThumbPath with
    | .error _ =>
        let fs2 := match fsRename fs1 newPath tempPath with
          | .ok f => f
          | .error _ => fs1
        (.error "failed to move thumbnail", fs2)
    | .ok fs2 =>
        (.ok (relPath dataDir newPath, relPath dataDir newThumbPath), fs2)

/-- Text of a sequence of newline-terminated lines, as its character list
(every write the index service performs ends in a newline, so ledger text is
always of this shape). -/
def charsOfLines : List String → List Char
  | [] => []
  | l :: rest => l.data ++ '\n' :: charsOfLines rest

/-- The header IndexService.InitializeIndex writes into a fresh ledger
(`"# Image Warehouse Index\nLast Updated: %s\n\n---\n"`); `now` is the
`"2006-01-02 15:04:05"` rendering of the current time. -/
def initialIndexContent (now : String) : String :=
  String.mk (charsOfLines ["# Image Warehouse Index", "Last Updated: " ++ now, "", "---"])

/-- IndexService.InitializeIndex: create the ledger with the header only when
`os.Stat` reports the file missing; otherwise leave the file untouched. -/
def InitializeIndex (fs : FS) (indexPath now : String) : FS × Except String Unit :=
  match fs indexPath with
  | some _ => (fs, .ok ())
  | none =>
      (fun p => if p = indexPath then some (initialIndexContent now) else fs p, .ok ())

/-- Multipart file handle as the 3D upload handler sees it: only the client
filename matters to the handler logic. -/
structure UploadFile where
  filename : String
deriving DecidableEq, Repr

/-- The parts of an HTTP multipart request `Handle3DUpload` consumes:
whether `ParseMultipartForm` succeeded, the per-field file lookups
(`r.FormFile`), and the text form values (`r.FormValue`, empty default). -/
structure HTTPRequest3D where
  parseFormOk : Bool
  files : String → Option UploadFile
  formValues : String → String

/-- Outcome of a handler invocation: an `http.Error` with its status code and
message, or an accepted upload answering 202 with the asset id. -/
inductive HandlerOutcome where
  | httpError (code : Nat) (msg : String)
  | accepted (imageID : String)
deriving DecidableEq, Repr

/-- First required view slot missing from the request, scanning in the order
the handler loops (`front, back, left, right[, top, bottom]`). -/
def firstMissingView (files : String → Option UploadFile) : List String → Option String
  | [] => none
  | v :: rest => if (files v).isNone then some v else firstMissingView files rest

/-- Upload3DHandler.Handle3DUpload: parse the form, require the model file,
pick the slot list from `mode`, require every slot file (first missing slot is
rejected with 400 before anything is staged or queued), parse tags, require
title and artist, stage the upload (`save` abstracts
`Save3DObjectToTemp`, which draws a fresh UUID), and queue the job.
`parseTags` abstracts `json.Unmarshal` on the tags field. -/
def Handle3DUpload (parseTags : String → Option (List String))
    (save : Except String (String × List (String × String) × String))
    (req : HTTPRequest3D) (st : ImageServiceState) (now : String) :
    HandlerOutcome × ImageServiceState :=
  if ¬ req.parseFormOk then (.httpError 400 "Files too large or invalid form", st)
  else
    match req.files "model" with
    | none => (.httpError 400 "Missing 3D model file", st)
    | some modelFile =>
      let views := if req.formValues "mode" = "4"
        then ["front", "back", "left", "right"]
        else ["front", "back", "left", "right", "top", "bottom"]
      match firstMissingView req.files views with
      | some v => (.httpError 400 ("Missing view: " ++ v), st)
      | none =>
        let title := req.formValues "title"
        let artist := req.formValues "artist"
        let tagsStr := req.formValues "tags"
        match (if tagsStr ≠ "" then parseTags tagsStr else some []) with
        | none => (.httpError 400 "Invalid tags format", st)
        | some tags =>
          if title = "" ∨ artist = "" then
            (.httpError 400 "Title and artist are required", st)
          else
            match save with
            | .error e => (.httpError 500 ("Failed to save 3D object: " ++ e), st)
            | .ok (imageID, tempPaths, modelPath) =>
              let job : UploadJob :=
                { imageID := imageID
                  typ := imageType3D
                  filePaths := tempPaths
                  modelFilePath := modelPath
                  modelFilename := modelFile.filename
                  title := title
                  artist := artist
                  manualTags := tags }
              match QueueJob st job now with
              | (st2, .error _) => (.httpError 500 "Failed to queue job", st2)
              | (st2, .ok _) => (.accepted imageID, st2)

/-- strings.Join(elems, ", "). -/
def joinComma : List String → String
  | [] => ""
  | [x] => x
  | x :: rest => x ++ ", " ++ joinComma rest

/-- IndexService.writeAIAnalysis: the lines of the AI Analysis block, in the
order the Go code writes them (each WriteString chunk ends in a newline; the
leading `"\n"` contributes the initial blank line). -/
def aiAnalysisLines (ai : AIAnalysis) : List String :=
  ["", "**AI Analysis:**",
   "- **Description:** " ++ ai.description,
   "- **Primary Category:** " ++ ai.primaryCategory,
   "- **Sub-category:** " ++ ai.subCategory] ++
  (if 0 < ai.objects.length then ["- **Objects Detected:** " ++ joinComma ai.objects] else []) ++
  (if 0 < ai.colors.length then ["- **Dominant Colors:** " ++ joinComma ai.colors] else []) ++
  (if ai.sceneType ≠ "" then ["- **Scene Type:** " ++ ai.sceneType] else []) ++
  (if ai.mood ≠ "" then ["- **Mood:** " ++ ai.mood] else []) ++
  (if ai.style ≠ "" then ["- **Style:** " ++ ai.style] else []) ++
  (if ai.lighting ≠ "" then ["- **Lighting:** " ++ ai.lighting] else []) ++
  (if 0 < ai.features.length then
    ["- **AI Features:** " ++
      joinComma (ai.features.map (fun f => f.name ++ " (" ++ f.confidence2f ++ ")"))] else []) ++
  (if ai.threeDCharacteristics ≠ "" then
    ["- **3D Characteristics:** " ++ ai.threeDCharacteristics] else [])

/-- The five common field lines of buildMarkdownEntry. -/
def commonFieldLines (img : Image) : List String :=
  ["**Title:** " ++ img.title,
   "**Artist:** " ++ img.artist,
   "**Uploaded:** " ++ img.uploadedAt,
   "**Type:** " ++ img.typ,
   "**Category:** " ++ img.category]

/-- The kind-specific lines of buildMarkdownEntry (2D: file path, thumbnail,
dimensions `%dx%d`, file size `%.1f MB`; 3D: folder path, optional model
file, the views block, total size with view count). -/
def kindLines (img : Image) : List String :=
  if img.typ = imageType2D then
    ["**File Path:** " ++ img.filePath,
     "**Thumbnail:** " ++ img.thumbnailPath,
     "**Dimensions:** " ++ (toString img.width ++ "x" ++ toString img.height),
     "**File Size:** " ++ (img.fileSizeMB ++ " MB")]
  else if img.typ = imageType3D then
    ["**Folder Path:** " ++ img.folderPath] ++
    (if img.modelFilePath ≠ "" then
      ["**Model File:** " ++ img.modelFilePath,
       "**Model Filename:** " ++ img.modelFilename] else []) ++
    ["**Views:**"] ++
    img.views.map (fun v => "- " ++ (v.1 ++ (": " ++ v.2))) ++
    ["**Total File Size:** " ++
      (img.totalFileSizeMB ++ (" MB (" ++ (toString img.views.length ++ " views)")))]
  else []

/-- The Manual Tags lines: written only when the record has tags. -/
def tagsLines (img : Image) : List String :=
  if 0 < img.manualTags.length then
    ["", "**Manual Tags:** " ++ joinComma img.manualTags] else []

/-- The optional AI block. -/
def aiBlockLines : Option AIAnalysis → List String
  | some ai => aiAnalysisLines ai
  | none => []

/-- Everything after the heading line of an entry. -/
def entryBodyLines (img : Image) : List String :=
  [""] ++ commonFieldLines img ++ kindLines img ++ tagsLines img ++
    aiBlockLines img.aiAnalysis ++ ["", "---"]

/-- IndexService.buildMarkdownEntry, as its list of newline-terminated lines:
`"\n## Image: %s\n\n"`, the field lines, optional tags and AI block, and the
closing `"\n---\n"`. -/
def buildMarkdownEntryLines (img : Image) : List String :=
  "" :: ("## Image: " ++ img.id) :: entryBodyLines img

/-- IndexService.buildMarkdownEntry: the serialized entry text. -/
def buildMarkdownEntry (img : Image) : String :=
  String.mk (charsOfLines (buildMarkdownEntryLines img))

/-- IndexService.AppendToIndex: the exclusive file lock makes the whole
build-and-write atomic, so an append is modelled as appending the serialized
entry to the ledger text. -/
def AppendToIndex (content : String) (img : Image) : String :=
  content ++ buildMarkdownEntry img

/-- A run of appends (the serialization of M concurrent appends: the lock
admits one writer at a time, so any concurrent execution equals this
sequential fold over the records in some order). -/
def appendAll (content : String) (imgs : List Image) : String :=
  imgs.foldl AppendToIndex content

/-- The characters of the heading marker `"## Image: "`. -/
def headPat : List Char := ['#', '#', ' ', 'I', 'm', 'a', 'g', 'e', ':', ' ']

/-- Whether a match of the Go heading regex `(?m)^## Image: (.+)$` starts at
this position (which the caller guarantees to be a line start): the literal
marker followed by at least one character that is not a newline. -/
def isHeadingStart (cs : List Char) : Bool :=
  headPat.isPrefixOf cs &&
    match cs.drop 10 with
    | c :: _ => c != '\n'
    | [] => false

/-- Whether a (newline-free) line matches the heading regex: marker prefix
plus a non-empty id. -/
def headingLineB (l : String) : Bool :=
  headPat.isPrefixOf l.data && decide (11 ≤ l.data.length)

/-- All character offsets of heading-regex matches, walking the text while
tracking whether the current position is a line start (position 0, or right
after a newline) — the char-level reading of the anchored multiline regex. -/
def headingPositionsAux : List Char → Nat → Bool → List Nat
  | [], _, _ => []
  | c :: rest, i, atLineStart =>
    (if atLineStart && isHeadingStart (c :: rest) then [i] else []) ++
      headingPositionsAux rest (i + 1) (c == '\n')

/-- Offsets of all `## Image:` heading matches in the ledger text. -/
def headingPositions (cs : List Char) : List Nat := headingPositionsAux cs 0 true

/-- GetAllImages slices the content into per-entry sections: each section
runs from its heading match to the next heading match (or the end of the
text for the last one). -/
def sectionsFrom (content : List Char) : List Nat → List (List Char)
  | [] => []
  | [p] => [content.drop p]
  | p :: q :: rest => (content.drop p).take (q - p) :: sectionsFrom content (q :: rest)

/-- Matches `\s*(.+)` at the start of the text with Go leftmost-first
semantics and returns the capture of `(.+)`: the greedy whitespace run is
shortened until a character that is not a newline can start the capture,
which then extends to the end of the line. -/
def matchTail : List Char → Option (List Char)
  | [] => none
  | c :: rest =>
    if goIsSpace c then
      match matchTail rest with
      | some cap => some cap
      | none =>
        if c == '\n' then none
        else some ((c :: rest).takeWhile (fun d => d != '\n'))
    else some ((c :: rest).takeWhile (fun d => d != '\n'))

/-- Leftmost match of `<pat>\s*(.+)`: try the literal at every position; on a
literal hit where the tail also matches, return the capture, otherwise keep
scanning one character further (regexp.FindStringSubmatch semantics). -/
def findFieldCapture (pat : List Char) : List Char → Option (List Char)
  | [] => none
  | c :: rest =>
    if pat.isPrefixOf (c :: rest) then
      match matchTail ((c :: rest).drop pat.length) with
      | some cap => some cap
      | none => findFieldCapture pat rest
    else findFieldCapture pat rest

/-- strings.TrimSpace on a character list. -/
def trimChars (cs : List Char) : List Char :=
  ((cs.dropWhile goIsSpace).reverse.dropWhile goIsSpace).reverse

/-- The literal part of the extractField regex
`\*\*<field>:\*\*\s*(.+)` (the field names used contain no regex
metacharacters, so QuoteMeta is the identity). -/
def fieldPattern (fieldName : String) : List Char :=
  ("**" ++ fieldName ++ ":**").data

/-- extractField: first match of the field regex in the section, trimmed;
empty string when the field is absent. -/
def extractField (content : List Char) (fieldName : String) : String :=
  match findFieldCapture (fieldPattern fieldName) content with
  | some cap => String.mk (trimChars cap)
  | none => ""

/-- normalizePath: Windows backslashes become forward slashes. -/
def normalizePath (s : String) : String :=
  String.mk (s.data.map fun c => if c == '\\' then '/' else c)

/-- strings.Split(s, ", ") on character lists. -/
def splitCommaSpace : List Char → List (List Char)
  | [] => [[]]
  | [c] => [[c]]
  | c :: d :: rest =>
    if c == ',' && d == ' ' then [] :: splitCommaSpace rest
    else
      match splitCommaSpace (d :: rest) with
      | [] => [[c]]
      | h :: t => (c :: h) :: t

/-- Go regexp `\w`: ASCII letters, digits and underscore. -/
def wordChar (c : Char) : Bool := c.isAlphanum || c == '_'

/-- Backtracking for `(\w+): (.+)` after the `- ` marker: the greedy word
run is shortened until the literal `": "` followed by at least one character
matches; returns the captured name and the trimmed, path-normalized rest of
the line. -/
def tryWordSplit (s : List Char) : Nat → Option (String × String)
  | 0 => none
  | Nat.succ k =>
    match s.drop (Nat.succ k) with
    | ':' :: ' ' :: c :: restPath =>
        some (String.mk (s.take (Nat.succ k)),
          normalizePath (String.mk (trimChars (c :: restPath))))
    | _ => tryWordSplit s k

/-- Match `(\w+): (.+)` right after a `- ` marker. -/
def parseViewLineAt (s : List Char) : Option (String × String) :=
  tryWordSplit s (s.takeWhile wordChar).length

/-- Leftmost match of the view line regex `- (\w+): (.+)` in one line. -/
def parseViewLine : List Char → Option (String × String)
  | [] => none
  | c :: rest =>
    match c, rest with
    | '-', ' ' :: s =>
      (match parseViewLineAt s with
       | some r => some r
       | none => parseViewLine rest)
    | _, _ => parseViewLine rest

/-- The prefix of the text up to and including its last newline; none when
the text has no newline. -/
def lastNewlineSplit : List Char → Option (List Char)
  | [] => none
  | c :: rest =>
    match lastNewlineSplit rest with
    | some p => some (c :: p)
    | none => if c == '\n' then some [c] else none

/-- The capture of `((?:- .+\n)+)` with the `(?s)` flag in force: dot also
matches newlines, so the greedy repetition captures from the `- ` marker
through the last newline of the remaining text (requiring at least one
character between the marker and that newline). -/
def viewsCapture : List Char → Option (List Char)
  | '-' :: ' ' :: rest =>
    (match lastNewlineSplit rest with
     | some cap => if 2 ≤ cap.length then some ('-' :: ' ' :: cap) else none
     | none => none)
  | _ => none

/-- The characters of the literal `"**Views:**\n"`. -/
def viewsPat : List Char := ['*', '*', 'V', 'i', 'e', 'w', 's', ':', '*', '*', '\n']

/-- Leftmost match of `\*\*Views:\*\*\n((?:- .+\n)+)` with dotall: scan for
the literal; where the repetition also matches, return its capture. -/
def findViewsBlock : List Char → Option (List Char)
  | [] => none
  | c :: rest =>
    if viewsPat.isPrefixOf (c :: rest) then
      match viewsCapture ((c :: rest).drop viewsPat.length) with
      | some cap => some cap
      | none => findViewsBlock rest
    else findViewsBlock rest

/-- extractViews: find the Views block, split its capture into lines, and
collect every line matched by the view line regex (the Go code stores the
pairs into a map keyed by view name in line order). -/
def extractViews (content : List Char) : List (String × String) :=
  match findViewsBlock content with
  | none => []
  | some cap => ((splitOnChar '\n' cap).filterMap parseViewLine)

/-- service.ImageMetadata: the summary GetAllImages derives per entry. -/
structure ImageMetadata where
  id : String
  title : String
  artist : String
  category : String
  typ : String
  thumbnailPath : String
  filePath : String
  modelFilePath : String
  modelFilename : String
  views : List (String × String)
  description : String
  tags : List String
  uploadedAt : String
deriving DecidableEq, Repr

/-- Parse one section: the id is the heading capture (the rest of the
heading line after the 10-character marker); the fields come from
extractField; tags split on `", "` when present; views only for 3D. -/
def parseSection (sec : List Char) : ImageMetadata :=
  let typ := extractField sec "Type"
  { id := String.mk ((sec.drop 10).takeWhile (fun c => c != '\n'))
    title := extractField sec "Title"
    artist := extractField sec "Artist"
    category := extractField sec "Category"
    typ := typ
    thumbnailPath := normalizePath (extractField sec "Thumbnail")
    filePath := normalizePath (extractField sec "File Path")
    modelFilePath := normalizePath (extractField sec "Model File")
    modelFilename := extractField sec "Model Filename"
    description := extractField sec "Description"
    uploadedAt := extractField sec "Uploaded"
    tags :=
      (let tagsStr := extractField sec "Manual Tags"
       if tagsStr ≠ "" then (splitCommaSpace tagsStr.data).map String.mk else [])
    views := if typ = "3D" then extractViews sec else [] }

/-- IndexService.GetAllImages: split the ledger at the heading matches and
parse every section. -/
def GetAllImages (content : String) : List ImageMetadata :=
  (sectionsFrom content.data (headingPositions content.data)).map parseSection

/-- The lines of all entries, concatenated in append order. -/
def allEntryLines : List Image → List String
  | [] => []
  | img :: rest => buildMarkdownEntryLines img ++ allEntryLines rest

/-- Line-level reading of the heading scan: the offset of each heading line,
lines being laid out one after another with their newline terminators. -/
def lineHeadingPositions : List String → Nat → List Nat
  | [], _ => []
  | l :: rest, i =>
    (if headingLineB l then [i] else []) ++
      lineHeadingPositions rest (i + l.data.length + 1)

/-- Whether the pattern provably mismatches the text within the text's own
length (so no continuation of the text can make the pattern a prefix). -/
def mismatchWithin : List Char → List Char → Bool
  | p :: pr, c :: m => (p != c) || mismatchWithin pr m
  | _, _ => false

/-- Whether the pattern can start at no position inside `m` (every suffix of
`m` mismatches the pattern within `m` itself). -/
def noStartIn (pat : List Char) : List Char → Bool
  | [] => true
  | c :: m => mismatchWithin pat (c :: m) && noStartIn pat m

/-- Whether the text contains the separator `", "`. -/
def containsCommaSpace : List Char → Bool
  | c :: d :: rest => (c == ',' && d == ' ') || containsCommaSpace (d :: rest)
  | _ => false

/-- A line the field scanner walks straight through: it splits into a part
the pattern cannot start in and a star-free rest. -/
def Skippable (pat : List Char) (l : String) : Prop :=
  (∃ m v, l.data = m ++ v ∧ noStartIn pat m = true ∧ ∀ c ∈ v, c ≠ '*') ∨
    noStartIn pat (l.data ++ ['\n']) = true

/-- A string free of newlines and asterisks (it cannot fake line breaks or
field markers inside the ledger). -/
def noNlStar (s : String) : Prop := ∀ c ∈ s.data, c ≠ '\n' ∧ c ≠ '*'

/-- A field value that round-trips: benign, non-empty and TrimSpace-invariant. -/
def goodField (s : String) : Prop :=
  noNlStar s ∧ s.data ≠ [] ∧ trimChars s.data = s.data

/-- A manual tag that round-trips: a good field without the `", "` separator. -/
def goodTag (s : String) : Prop := goodField s ∧ containsCommaSpace s.data = false

/-- Benignness of an AI analysis block: all rendered strings are benign. -/
def benignAI (ai : AIAnalysis) : Prop :=
  noNlStar ai.description ∧ noNlStar ai.primaryCategory ∧ noNlStar ai.subCategory ∧
  (∀ s ∈ ai.objects, noNlStar s) ∧ (∀ s ∈ ai.colors, noNlStar s) ∧
  noNlStar ai.sceneType ∧ noNlStar ai.mood ∧ noNlStar ai.style ∧ noNlStar ai.lighting ∧
  (∀ f ∈ ai.features, noNlStar f.name ∧ noNlStar f.confidence2f) ∧
  noNlStar ai.threeDCharacteristics

/-- Benignness of the optional AI block. -/
def benignAIOpt : Option AIAnalysis → Prop
  | some ai => benignAI ai
  | none => True

/-- A single-image record whose serialized entry round-trips exactly:
2D kind, benign rendered fields, title/artist/category non-empty and
trim-invariant, tags separator-free and trim-invariant. -/
def benign2D (img : Image) : Prop :=
  img.typ = imageType2D ∧
  noNlStar img.id ∧ img.id.data ≠ [] ∧
  goodField img.title ∧ goodField img.artist ∧ goodField img.category ∧
  noNlStar img.uploadedAt ∧ noNlStar img.filePath ∧ noNlStar img.thumbnailPath ∧
  noNlStar (toString img.width) ∧ noNlStar (toString img.height) ∧
  noNlStar img.fileSizeMB ∧
  (∀ t ∈ img.manualTags, goodTag t) ∧
  benignAIOpt img.aiAnalysis

/-- The lines of the section GetAllImages slices out for an entry: from the
heading line to the end of the entry. -/
def sectionLines (img : Image) : List String :=
  ("## Image: " ++ img.id) :: entryBodyLines img

/-- Concrete record whose trailing-space title refutes the exact round-trip
of C4. -/
def c4CexImage : Image :=
  { id := "cex-4", title := "Padded ", artist := "A", typ := "2D",
    uploadedAt := "2024-01-01 00:00:00", status := "completed",
    filePath := "categories/c/cex-4.jpg", thumbnailPath := "categories/c/cex-4_thumb.jpg",
    fileSizeMB := "1.0", width := 10, height := 20, category := "c",
    manualTags := [], aiAnalysis := none }

/-- Concrete benign record used for the C4 witness. -/
def c4WitnessImage : Image :=
  { id := "w-4", title := "Beach", artist := "Alice", typ := "2D",
    uploadedAt := "2024-01-01 00:00:00", status := "completed",
    filePath := "categories/c/w-4.jpg", thumbnailPath := "categories/c/w-4_thumb.jpg",
    fileSizeMB := "1.0", width := 10, height := 20, category := "beaches",
    manualTags := ["beach", "sunset"], aiAnalysis := none }

/-- A multi-view 3D record whose serialized entry round-trips exactly:
3D kind, benign rendered fields and view names, title/artist/category
non-empty and trim-invariant, tags separator-free and trim-invariant. -/
def benign3D (img : Image) : Prop :=
  img.typ = imageType3D ∧
  noNlStar img.id ∧ img.id.data ≠ [] ∧
  goodField img.title ∧ goodField img.artist ∧ goodField img.category ∧
  noNlStar img.uploadedAt ∧ noNlStar img.folderPath ∧
  noNlStar img.modelFilePath ∧ noNlStar img.modelFilename ∧
  noNlStar img.totalFileSizeMB ∧ noNlStar (toString img.views.length) ∧
  (∀ v ∈ img.views, noNlStar v.1 ∧ noNlStar v.2) ∧
  (∀ t ∈ img.manualTags, goodTag t) ∧
  benignAIOpt img.aiAnalysis

/-- Concrete benign multi-view 3D record used for the C4 witness. -/
def c4Witness3DImage : Image :=
  { id := "w-5", title := "Robot", artist := "Bob", typ := "3D",
    uploadedAt := "2024-01-02 00:00:00", status := "completed",
    folderPath := "categories/robots/w-5",
    modelFilePath := "categories/robots/w-5/model.glb",
    modelFilename := "model.glb",
    views := [("front", "front.png"), ("back", "back.png")],
    totalFileSizeMB := "3.2", category := "robots",
    manualTags := ["robot", "mech"], aiAnalysis := none }

/-- Concrete job used to refute C2. -/
def c2Job : UploadJob := { imageID := "cex-id", title := "T", artist := "A", typ := "2D" }

/-- Concrete saturated service state used to refute C2: 100 pending jobs, and
no status entry at all. -/
def c2FullState : ImageServiceState :=
  { jobQueue := List.replicate 100 { imageID := "other" }, statusMap := fun _ => none }

/-- Concrete failing job used to refute C6. -/
def c6Job : UploadJob := { imageID := "j1", typ := "2D", title := "T" }

/-- Concrete status map holding the `processing` entry for the failing job. -/
def c6Map : String → Option Image :=
  fun k => if k = "j1" then some (initialStatusRecord c6Job "t0") else none

/-- Concrete staged filesystem used for the C1 witness: the staged image and
its staged thumbnail exist, nothing else does. -/
def c1fs : FS :=
  fun p => if p = "data/temp/x.jpg" then some "img"
    else if p = "data/temp/x_thumb.jpg" then some "th" else none

/-- Concrete request used for the C8 witness: a 4-view upload with the
`right` view absent. -/
def c8Request : HTTPRequest3D :=
  { parseFormOk := true
    files := fun k =>
      if k = "model" then some { filename := "m.glb" }
      else if k = "front" then some { filename := "f.png" }
      else if k = "back" then some { filename := "b.png" }
      else if k = "left" then some { filename := "l.png" }
      else none
    formValues := fun k =>
      if k = "mode" then "4"
      else if k = "title" then "T"
      else if k = "artist" then "A" else "" }

/-- C7 counterexample: the claim says normalization maps every input string to
a non-empty string, but `normalizeCategoryName` returns the empty string on
the input `"!"` (everything is stripped). -/
theorem C7_counterexample_empty_output : normalizeCategoryName "!" = "" := by decide

/-- C7 (amended): category normalization is a total function whose output
uses only lower-case letters, digits and hyphens — but may be empty — and it
maps `"Sci-Fi Character!"` to `"sci-fi-character"`. -/
theorem C7_normalize_alphabet_and_example :
    (∀ s : String, ∀ c ∈ (normalizeCategoryName s).data, isCategoryChar c = true) ∧
    normalizeCategoryName "Sci-Fi Character!" = "sci-fi-character" := by
  constructor
  · intro s c hc
    exact (List.mem_filter.mp hc).2
  · decide

/-- C7 witness: the alphabet property evaluated at a concrete input. -/
theorem C7_witness : isCategoryChar 'a' = true :=
  C7_normalize_alphabet_and_example.1 "a" 'a' (by decide)

/-- C9: Search truncates the provider result list locally to at most the
requested limit, and the response Total field equals the number of results
actually returned. -/
theorem C9_search_truncates_and_total :
    ∀ (indexRead : Except String String)
      (provider : String → Except String (List SearchResult))
      (query : String) (limit : Nat) (resp : SearchResponse),
      Search indexRead provider query limit = .ok resp →
      resp.results.length ≤ limit ∧ resp.total = resp.results.length := by
  intro ir pr q lim resp h
  cases ir with
  | error e => simp [Search] at h
  | ok content =>
    cases hp : pr content with
    | error e => simp [Search, hp] at h
    | ok results =>
      simp only [Search, hp] at h
      split at h
      · cases h with
        | refl =>
          refine ⟨?_, rfl⟩
          simp [Nat.min_le_left]
      · next hgt =>
        cases h with
        | refl => exact ⟨Nat.le_of_not_lt hgt, rfl⟩

/-- C9 witness: the truncation property at a concrete provider call. -/
theorem C9_witness :
    ({ results := [], total := 0, query := "q" } : SearchResponse).results.length ≤ 5 ∧
    ({ results := [], total := 0, query := "q" } : SearchResponse).total =
      ({ results := [], total := 0, query := "q" } : SearchResponse).results.length :=
  C9_search_truncates_and_total (.ok "") (fun _ => .ok []) "q" 5 _ rfl

/-- C10: the bounded queue created by NewImageService has capacity exactly
100: a submission finding fewer than 100 pending jobs succeeds, and a
submission finding 100 pending jobs is rejected as saturated. -/
theorem C10_queue_capacity_100 :
    jobQueueCapacity = 100 ∧
    ∀ (st : ImageServiceState) (job : UploadJob) (now : String),
      (st.jobQueue.length < 100 → (QueueJob st job now).2 = .ok ()) ∧
      (st.jobQueue.length = 100 → (QueueJob st job now).2 = .error "job queue is full") := by
  refine ⟨rfl, ?_⟩
  intro st job now
  constructor
  · intro h
    simp [QueueJob, jobQueueCapacity, h]
  · intro h
    simp [QueueJob, jobQueueCapacity, h]

/-- C10 witness: an empty queue accepts a job. -/
theorem C10_witness :
    (QueueJob { jobQueue := [], statusMap := fun _ => none } { imageID := "w" } "t").2 = .ok () :=
  ((C10_queue_capacity_100.2 { jobQueue := [], statusMap := fun _ => none }
    { imageID := "w" } "t").1 (by decide))


/-- C2 counterexample: submitting to a full queue does return the saturation
error, but it does NOT leave the status map unchanged — QueueJob records the
`processing` status entry for the asset id before attempting the send, and
the entry remains after the failed submission. -/
theorem C2_counterexample_status_entry_created :
    (QueueJob c2FullState c2Job "2024-01-01 00:00:00").2 = .error "job queue is full" ∧
    c2FullState.statusMap "cex-id" = none ∧
    (QueueJob c2FullState c2Job "2024-01-01 00:00:00").1.statusMap "cex-id" =
      some (initialStatusRecord c2Job "2024-01-01 00:00:00") := by
  refine ⟨?_, rfl, ?_⟩
  · simp [QueueJob, c2FullState, jobQueueCapacity]
  · simp [QueueJob, c2FullState, jobQueueCapacity, c2Job]

/-- C2 (amended): submission to a full queue returns the `job queue is full`
error and enqueues nothing, but the status map is mutated: the entry for the
job's asset id is set to the initial `processing` record before the send is
attempted, and every other key is untouched. -/
theorem C2_queue_full_behavior :
    ∀ (st : ImageServiceState) (job : UploadJob) (now : String),
      jobQueueCapacity ≤ st.jobQueue.length →
      (QueueJob st job now).2 = .error "job queue is full" ∧
      (QueueJob st job now).1.jobQueue = st.jobQueue ∧
      (QueueJob st job now).1.statusMap job.imageID =
        some (initialStatusRecord job now) ∧
      ∀ k, k ≠ job.imageID → (QueueJob st job now).1.statusMap k = st.statusMap k := by
  intro st job now h
  have hnot : ¬ st.jobQueue.length < jobQueueCapacity := Nat.not_lt.mpr h
  refine ⟨?_, ?_, ?_, ?_⟩
  · simp [QueueJob, hnot]
  · simp [QueueJob, hnot]
  · simp [QueueJob, hnot]
  · intro k hk
    simp [QueueJob, hnot, hk]

/-- C2 witness: the amended behavior at the concrete saturated state. -/
theorem C2_witness :
    (QueueJob c2FullState c2Job "now").2 = .error "job queue is full" ∧
    (QueueJob c2FullState c2Job "now").1.jobQueue = c2FullState.jobQueue ∧
    (QueueJob c2FullState c2Job "now").1.statusMap c2Job.imageID =
      some (initialStatusRecord c2Job "now") ∧
    ∀ k, k ≠ c2Job.imageID →
      (QueueJob c2FullState c2Job "now").1.statusMap k = c2FullState.statusMap k :=
  C2_queue_full_behavior c2FullState c2Job "now" (by decide)


/-- C6 counterexample: when the pipeline fails, the worker sets the status
entry to the string `error`, not to `failed` as the claim states (the Image
struct has no field carrying the error text either). -/
theorem C6_counterexample_status_is_error :
    ((runWorker (fun _ => .error "failed to generate thumbnail: boom") "t1"
        c6Map [c6Job]) "j1").map Image.status = some "error" ∧
    (some "error" : Option String) ≠ some "failed" := by
  constructor
  · rfl
  · decide

/-- C6 (amended): every pipeline failure is absorbed at the worker level: the
job's status entry is set to the terminal string `error` (the error text is
only logged, not retained on the record), and the loop goes on to process the
remaining jobs. -/
theorem C6_worker_absorbs_failures :
    ∀ (pipeline : UploadJob → Except String Image) (now : String)
      (m : String → Option Image) (job : UploadJob) (rest : List UploadJob)
      (e : String) (img0 : Image),
      pipeline job = .error e → m job.imageID = some img0 →
      runWorker pipeline now m (job :: rest) =
        runWorker pipeline now (updateStatus m job.imageID "error" now) rest ∧
      updateStatus m job.imageID "error" now job.imageID =
        some { img0 with status := "error" } := by
  intro pipeline now m job rest e img0 hfail hentry
  constructor
  · simp [runWorker, hfail]
  · simp [updateStatus, hentry]

/-- C6 witness: the amended behavior at the concrete failing job. -/
theorem C6_witness :
    runWorker (fun _ => .error "boom") "t1" c6Map [c6Job] =
      runWorker (fun _ => .error "boom") "t1"
        (updateStatus c6Map c6Job.imageID "error" "t1") [] ∧
    updateStatus c6Map c6Job.imageID "error" "t1" c6Job.imageID =
      some { initialStatusRecord c6Job "t0" with status := "error" } :=
  C6_worker_absorbs_failures (fun _ => .error "boom") "t1" c6Map c6Job [] "boom"
    (initialStatusRecord c6Job "t0") rfl rfl

/-- C5: InitializeIndex creates the ledger with the header only when the file
is absent, leaves an existing ledger exactly as it is, and running it a
second time never alters what the first run produced. -/
theorem C5_InitializeIndex_idempotent :
    ∀ (fs : FS) (indexPath now now2 : String),
      ((fs indexPath).isSome → (InitializeIndex fs indexPath now).1 = fs) ∧
      (fs indexPath = none →
        (InitializeIndex fs indexPath now).1 indexPath = some (initialIndexContent now)) ∧
      (InitializeIndex (InitializeIndex fs indexPath now).1 indexPath now2).1 =
        (InitializeIndex fs indexPath now).1 := by
  intro fs indexPath now now2
  cases h : fs indexPath with
  | some c =>
    refine ⟨fun _ => ?_, fun hn => ?_, ?_⟩
    · simp [InitializeIndex, h]
    · simp [h] at hn
    · simp [InitializeIndex, h]
  | none =>
    refine ⟨fun hs => ?_, fun _ => ?_, ?_⟩
    · simp [h] at hs
    · simp [InitializeIndex, h]
    · simp [InitializeIndex, h]

/-- C5 witness: an existing ledger is left untouched, and a missing ledger
receives the header, at concrete states. -/
theorem C5_witness :
    ((InitializeIndex (fun p => if p = "idx" then some "c" else none) "idx" "t").1 =
      fun p => if p = "idx" then some "c" else none) ∧
    (InitializeIndex (fun _ => none) "idx" "t").1 "idx" = some (initialIndexContent "t") :=
  ⟨(C5_InitializeIndex_idempotent _ "idx" "t" "t2").1 (by decide),
   (C5_InitializeIndex_idempotent (fun _ => none) "idx" "t" "t2").2.1 rfl⟩


/-- Successful rename: the source exists and moves to the destination. -/
theorem fsRename_ok (fs : FS) (src dst c : String) (h : fs src = some c) :
    fsRename fs src dst =
      .ok (fun p => if p = dst then some c else if p = src then none else fs p) := by
  simp [fsRename, h]

/-- Failed rename: the source does not exist. -/
theorem fsRename_err (fs : FS) (src dst : String) (h : fs src = none) :
    fsRename fs src dst = .error () := by
  simp [fsRename, h]

/-- C1: single-image relocation is all-or-nothing. Whenever `MoveToCategory`
returns an error the filesystem is exactly as before the call (in particular
the staged pair is back in place and, the final paths being initially vacant,
no final file exists); whenever it succeeds the final file and final
thumbnail hold the staged contents and the staged pair is gone; and a staged
pair that is present is always relocated successfully. Hypotheses: the final
path is initially vacant and the four involved paths are pairwise distinct
(which the directory layout guarantees: staging lives under `temp/`, finals
under `categories/`). -/
theorem C1_MoveToCategory_all_or_nothing :
    ∀ (fs : FS) (dataDir imageID tempPath category : String),
      fs (finalImagePath dataDir imageID tempPath category) = none →
      finalImagePath dataDir imageID tempPath category ≠ getThumbnailPath tempPath →
      finalImagePath dataDir imageID tempPath category ≠ tempPath →
      finalImagePath dataDir imageID tempPath category ≠ finalThumbPath dataDir imageID category →
      finalThumbPath dataDir imageID category ≠ tempPath →
      finalThumbPath dataDir imageID category ≠ getThumbnailPath tempPath →
      getThumbnailPath tempPath ≠ tempPath →
      (∀ e, (MoveToCategory fs dataDir imageID tempPath category).1 = .error e →
        ∀ p, (MoveToCategory fs dataDir imageID tempPath category).2 p = fs p) ∧
      (∀ v, (MoveToCategory fs dataDir imageID tempPath category).1 = .ok v →
        (MoveToCategory fs dataDir imageID tempPath category).2
            (finalImagePath dataDir imageID tempPath category) = fs tempPath ∧
        (MoveToCategory fs dataDir imageID tempPath category).2
            (finalThumbPath dataDir imageID category) = fs (getThumbnailPath tempPath) ∧
        (MoveToCategory fs dataDir imageID tempPath category).2 tempPath = none ∧
        (MoveToCategory fs dataDir imageID tempPath category).2 (getThumbnailPath tempPath) = none) ∧
      ((fs tempPath).isSome → (fs (getThumbnailPath tempPath)).isSome →
        (MoveToCategory fs dataDir imageID tempPath category).1.isOk = true) := by
  intro fs dataDir imageID tempPath category hfresh hnp_tp hnp_t hnp_ntp hntp_t hntp_tp htp_t
  cases h0 : fs tempPath with
  | none =>
    have hM : MoveToCategory fs dataDir imageID tempPath category =
        (.error "failed to move image", fs) := by
      simp only [MoveToCategory, fsRename_err fs tempPath _ h0]
    rw [hM]
    refine ⟨fun e _ p => rfl, fun v hv => by simp at hv, fun hs _ => by simp [h0] at hs⟩
  | some a =>
    have hfs1 := fsRename_ok fs tempPath (finalImagePath dataDir imageID tempPath category) a h0
    have htp1 : (fun p => if p = finalImagePath dataDir imageID tempPath category then some a
          else if p = tempPath then none else fs p) (getThumbnailPath tempPath) =
        fs (getThumbnailPath tempPath) := by
      simp [Ne.symm hnp_tp, htp_t]
    cases h1 : fs (getThumbnailPath tempPath) with
    | none =>
      have hsnd := fsRename_err
        (fun p => if p = finalImagePath dataDir imageID tempPath category then some a
          else if p = tempPath then none else fs p)
        (getThumbnailPath tempPath)
        (finalThumbPath dataDir imageID category) (htp1.trans h1)
      have hnp1 : (fun p => if p = finalImagePath dataDir imageID tempPath category then some a
            else if p = tempPath then none else fs p)
          (finalImagePath dataDir imageID tempPath category) = some a := by simp
      have hroll := fsRename_ok
        (fun p => if p = finalImagePath dataDir imageID tempPath category then some a
          else if p = tempPath then none else fs p)
        (finalImagePath dataDir imageID tempPath category)
        tempPath a hnp1
      have hM : MoveToCategory fs dataDir imageID tempPath category =
          (.error "failed to move thumbnail",
            fun p => if p = tempPath then some a
              else if p = finalImagePath dataDir imageID tempPath category then none
              else if p = finalImagePath dataDir imageID tempPath category then some a
              else if p = tempPath then none else fs p) := by
        simp only [MoveToCategory, hfs1, hsnd, hroll]
      rw [hM]
      refine ⟨fun e _ p => ?_, fun v hv => by simp at hv, fun _ hs => by simp [h1] at hs⟩
      by_cases hp1 : p = tempPath
      · subst hp1; simp [h0]
      · by_cases hp2 : p = finalImagePath dataDir imageID tempPath category
        · subst hp2; simp [hp1, hfresh]
        · simp [hp1, hp2]
    | some b =>
      have hsnd := fsRename_ok
        (fun p => if p = finalImagePath dataDir imageID tempPath category then some a
          else if p = tempPath then none else fs p)
        (getThumbnailPath tempPath)
        (finalThumbPath dataDir imageID category) b (htp1.trans h1)
      have hM : MoveToCategory fs dataDir imageID tempPath category =
          (.ok (relPath dataDir (finalImagePath dataDir imageID tempPath category),
                relPath dataDir (finalThumbPath dataDir imageID category)),
            fun p => if p = finalThumbPath dataDir imageID category then some b
              else if p = getThumbnailPath tempPath then none
              else if p = finalImagePath dataDir imageID tempPath category then some a
              else if p = tempPath then none else fs p) := by
        simp only [MoveToCategory, hfs1, hsnd]
      rw [hM]
      refine ⟨fun e he => by simp at he, fun v _ => ?_, fun _ _ => rfl⟩
      refine ⟨?_, ?_, ?_, ?_⟩
      · simp [hnp_ntp, hnp_tp, h0]
      · simp [Ne.symm hntp_tp]
      · simp [Ne.symm hntp_t, Ne.symm htp_t, Ne.symm hnp_t]
      · simp [Ne.symm hntp_tp]


/-- C1 witness: relocating the concretely staged pair succeeds. -/
theorem C1_witness :
    (MoveToCategory c1fs "data" "id1" "data/temp/x.jpg" "cats").1.isOk = true :=
  (C1_MoveToCategory_all_or_nothing c1fs "data" "id1" "data/temp/x.jpg" "cats"
    (by decide) (by decide) (by decide) (by decide) (by decide) (by decide)
    (by decide)).2.2 (by decide) (by decide)

/-- C8: a 4-slot multi-view upload missing the `right` slot is rejected
synchronously with the 400 validation error before anything happens: the
handler returns `Missing view: right` and the service state (queue and
status map) is exactly the state it was handed — no job is enqueued and no
status entry is created. -/
theorem C8_missing_slot_rejected :
    ∀ (parseTags : String → Option (List String))
      (save : Except String (String × List (String × String) × String))
      (req : HTTPRequest3D) (st : ImageServiceState) (now : String),
      req.parseFormOk = true →
      (req.files "model").isSome →
      req.formValues "mode" = "4" →
      (req.files "front").isSome →
      (req.files "back").isSome →
      (req.files "left").isSome →
      req.files "right" = none →
      Handle3DUpload parseTags save req st now =
        (.httpError 400 "Missing view: right", st) := by
  intro parseTags save req st now hparse hmodel hmode hf hb hl hr
  obtain ⟨mf, hmf⟩ := Option.isSome_iff_exists.mp hmodel
  obtain ⟨ff, hff⟩ := Option.isSome_iff_exists.mp hf
  obtain ⟨bf, hbf⟩ := Option.isSome_iff_exists.mp hb
  obtain ⟨lf, hlf⟩ := Option.isSome_iff_exists.mp hl
  simp [Handle3DUpload, hparse, hmf, hmode, firstMissingView, hff, hbf, hlf, hr]


/-- C8 witness: the concrete deficient request is rejected with the state
untouched. -/
theorem C8_witness :
    Handle3DUpload (fun _ => none) (.error "unused") c8Request
      { jobQueue := [], statusMap := fun _ => none } "t" =
      (.httpError 400 "Missing view: right",
        { jobQueue := [], statusMap := fun _ => none }) :=
  C8_missing_slot_rejected (fun _ => none) (.error "unused") c8Request
    { jobQueue := [], statusMap := fun _ => none } "t"
    rfl (by decide) (by decide) (by decide) (by decide) (by decide) (by decide)

/-- String append acts as list append on the character data. -/
theorem stringAppend_data (a b : String) : (a ++ b).data = a.data ++ b.data := rfl

/-- Rebuilding a string from its character data gives the string back. -/
theorem stringMk_data (s : String) : String.mk s.data = s := rfl

/-- charsOfLines distributes over list append. -/
theorem charsOfLines_append (a b : List String) :
    charsOfLines (a ++ b) = charsOfLines a ++ charsOfLines b := by
  induction a with
  | nil => rfl
  | cons l rest ih => simp [charsOfLines, ih]

/-- The ledger after a run of appends, as characters: the starting text
followed by the lines of all entries. -/
theorem appendAll_data (imgs : List Image) (c : String) :
    (appendAll c imgs).data = c.data ++ charsOfLines (allEntryLines imgs) := by
  induction imgs generalizing c with
  | nil => simp [appendAll, allEntryLines, charsOfLines]
  | cons img rest ih =>
    have h1 : appendAll c (img :: rest) = appendAll (AppendToIndex c img) rest := rfl
    rw [h1, ih, AppendToIndex]
    simp [stringAppend_data, buildMarkdownEntry, allEntryLines, charsOfLines_append]

/-- A newline-free pattern is a prefix of `xs ++ '\n' :: ys` exactly when it
is a prefix of `xs`, provided `xs` is newline-free as well. -/
theorem isPrefixOf_append_nl (pat : List Char) (hpat : ∀ c ∈ pat, c ≠ '\n') :
    ∀ (xs ys : List Char), (∀ c ∈ xs, c ≠ '\n') →
      pat.isPrefixOf (xs ++ '\n' :: ys) = pat.isPrefixOf xs := by
  induction pat with
  | nil => intro xs ys _; cases xs <;> simp [List.isPrefixOf]
  | cons p pr ih =>
    intro xs ys hxs
    cases xs with
    | nil =>
      simp only [List.nil_append, List.isPrefixOf]
      have hp : p ≠ '\n' := hpat p (by simp)
      simp [hp]
    | cons x xt =>
      simp only [List.cons_append, List.isPrefixOf, List.append_eq]
      rw [ih (fun c hc => hpat c (by simp [hc])) xt ys (fun c hc => hxs c (by simp [hc]))]

/-- Heading detection at the start of a full newline-free chunk followed by a
newline agrees with the heading line check on the chunk. -/
theorem isHeadingStart_append (xs ys : List Char) (hxs : ∀ c ∈ xs, c ≠ '\n') :
    isHeadingStart (xs ++ '\n' :: ys) =
      (headPat.isPrefixOf xs && decide (11 ≤ xs.length)) := by
  unfold isHeadingStart
  rw [isPrefixOf_append_nl headPat (by decide) xs ys hxs]
  by_cases hp : headPat.isPrefixOf xs
  · have hlen : 10 ≤ xs.length := by
      have := (List.isPrefixOf_iff_prefix.mp hp).length_le
      simpa [headPat] using this
    rw [hp]
    simp only [Bool.true_and]
    rcases Nat.lt_or_ge xs.length 11 with h11 | h11
    · have hlen10 : xs.length = 10 := by omega
      have hdrop : xs.drop 10 = [] := List.drop_eq_nil_of_le (by omega)
      rw [List.drop_append_eq_append_drop, hdrop, hlen10]
      simp
    · have hne : xs.drop 10 ≠ [] := by
        intro h
        have := congrArg List.length h
        rw [List.length_drop] at this
        simp at this
        omega
      rw [List.drop_append_eq_append_drop]
      cases hd : xs.drop 10 with
      | nil => exact absurd hd hne
      | cons c t =>
        have hc : c ∈ xs := List.drop_subset 10 xs (by simp [hd])
        have := hxs c hc
        have h1 : (c != '\n') = true := by simpa using this
        change (c != '\n') = decide (11 ≤ xs.length)
        rw [h1, eq_comm, decide_eq_true_eq]
        omega
  · simp [hp]

/-- The heading line predicate, unfolded onto the character data. -/
theorem headingLineB_eq (l : String) :
    headingLineB l = (headPat.isPrefixOf l.data && decide (11 ≤ l.data.length)) := rfl

/-- Inside a line (not at a line start) nothing is counted until the next
newline. -/
theorem hpaux_false (xs : List Char) (hxs : ∀ c ∈ xs, c ≠ '\n') :
    ∀ (ys : List Char) (i : Nat),
      headingPositionsAux (xs ++ '\n' :: ys) i false =
        headingPositionsAux ys (i + xs.length + 1) true := by
  induction xs with
  | nil =>
    intro ys i
    simp [headingPositionsAux]
  | cons c xt ih =>
    intro ys i
    have hc : c ≠ '\n' := hxs c (by simp)
    have hcb : (c == '\n') = false := by simpa using hc
    simp only [List.cons_append, headingPositionsAux, Bool.false_and, if_neg,
      List.nil_append, List.append_eq, hcb]
    rw [ih (fun d hd => hxs d (by simp [hd])) ys (i + 1)]
    simp only [Bool.false_eq_true, if_false, List.nil_append, List.length_cons]
    have harith : i + 1 + xt.length + 1 = i + (xt.length + 1) + 1 := by omega
    rw [harith]

/-- Scanning one full newline-free line from a line start: the line is
counted exactly when it matches the heading regex, then the scan continues
at the next line start. -/
theorem hpaux_line (l : String) (ys : List Char) (i : Nat)
    (hl : ∀ c ∈ l.data, c ≠ '\n') :
    headingPositionsAux (l.data ++ '\n' :: ys) i true =
      (if headingLineB l then [i] else []) ++
        headingPositionsAux ys (i + l.data.length + 1) true := by
  cases hd : l.data with
  | nil =>
    rw [hd] at hl
    have hB : headingLineB l = false := by
      rw [headingLineB_eq, hd]
      simp [headPat, List.isPrefixOf]
    rw [hB]
    simp [headingPositionsAux, isHeadingStart, headPat, List.isPrefixOf]
  | cons c xt =>
    rw [hd] at hl
    have hc : c ≠ '\n' := hl c (by simp)
    have hcb : (c == '\n') = false := by simpa using hc
    have hhs := isHeadingStart_append (c :: xt) ys hl
    have hB : headingLineB l =
        (headPat.isPrefixOf (c :: xt) && decide (11 ≤ (c :: xt).length)) := by
      rw [headingLineB_eq, hd]
    simp only [List.cons_append] at hhs ⊢
    rw [headingPositionsAux, hhs]
    simp only [Bool.true_and, hcb]
    rw [← hB]
    rw [hpaux_false xt (fun d hd2 => hl d (by simp [hd2])) ys (i + 1)]
    have harith : i + 1 + xt.length + 1 = i + (c :: xt).length + 1 := by
      simp only [List.length_cons]; omega
    rw [harith]

/-- The char-level heading scan over laid-out lines agrees with the
line-level positions. -/
theorem hpaux_lines : ∀ (ls : List String) (ys : List Char) (i : Nat),
    (∀ l ∈ ls, ∀ c ∈ l.data, c ≠ '\n') →
    headingPositionsAux (charsOfLines ls ++ ys) i true =
      lineHeadingPositions ls i ++
        headingPositionsAux ys (i + (charsOfLines ls).length) true := by
  intro ls
  induction ls with
  | nil => intro ys i h; simp [charsOfLines, lineHeadingPositions]
  | cons l rest ih =>
    intro ys i h
    have hl : ∀ c ∈ l.data, c ≠ '\n' := h l (by simp)
    simp only [charsOfLines, List.append_assoc, List.cons_append]
    rw [hpaux_line l (charsOfLines rest ++ ys) i hl]
    rw [ih ys (i + l.data.length + 1) (fun m hm => h m (by simp [hm]))]
    simp only [lineHeadingPositions, List.append_assoc]
    have harith : i + l.data.length + 1 + (charsOfLines rest).length =
        i + (l.data ++ '\n' :: charsOfLines rest).length := by
      simp only [List.length_append, List.length_cons]; omega
    rw [harith]

/-- Heading positions of a fully laid-out line list. -/
theorem headingPositions_lines (ls : List String)
    (h : ∀ l ∈ ls, ∀ c ∈ l.data, c ≠ '\n') :
    headingPositions (charsOfLines ls) = lineHeadingPositions ls 0 := by
  have := hpaux_lines ls [] 0 h
  simpa [headingPositions, headingPositionsAux] using this

/-- Line positions of an appended line list. -/
theorem lineHeadingPositions_append (a b : List String) :
    ∀ (i : Nat), lineHeadingPositions (a ++ b) i =
      lineHeadingPositions a i ++
        lineHeadingPositions b (i + (charsOfLines a).length) := by
  induction a with
  | nil => intro i; simp [lineHeadingPositions, charsOfLines]
  | cons l rest ih =>
    intro i
    simp only [List.cons_append, lineHeadingPositions, List.append_assoc, List.append_eq]
    rw [ih (i + l.data.length + 1)]
    have harith : i + l.data.length + 1 + (charsOfLines rest).length =
        i + (charsOfLines (l :: rest)).length := by
      simp only [charsOfLines, List.length_append, List.length_cons]; omega
    rw [harith]

/-- A list of non-heading lines contributes no positions. -/
theorem lineHeadingPositions_none (ls : List String) :
    ∀ (i : Nat), (∀ l ∈ ls, headingLineB l = false) →
      lineHeadingPositions ls i = [] := by
  induction ls with
  | nil => intro i h; rfl
  | cons l rest ih =>
    intro i h
    rw [lineHeadingPositions, h l (by simp)]
    simp only [Bool.false_eq_true, if_false, List.nil_append]
    exact ih _ (fun m hm => h m (by simp [hm]))

/-- A line whose first character is not `#` never matches the heading regex,
whatever follows. -/
theorem headingLineB_append_false (m v : String) (c : Char)
    (hm : m.data.head? = some c) (hc : c ≠ '#') :
    headingLineB (m ++ v) = false := by
  rw [headingLineB_eq, stringAppend_data]
  cases hd : m.data with
  | nil => rw [hd] at hm; simp at hm
  | cons a t =>
    rw [hd] at hm
    have ha : a = c := by simpa using hm
    subst ha
    have : (('#' : Char) == a) = false := by
      simp
      intro h
      exact hc h.symm
    simp [headPat, List.isPrefixOf, this]

/-- The heading line of an entry matches the heading regex exactly when the
id is non-empty. -/
theorem headingLineB_heading (id : String) (hid : id.data ≠ []) :
    headingLineB ("## Image: " ++ id) = true := by
  rw [headingLineB_eq, stringAppend_data]
  have hpre : headPat.isPrefixOf (("## Image: ").data ++ id.data) = true := by
    apply List.isPrefixOf_iff_prefix.mpr
    have : headPat = ("## Image: ").data := by decide
    rw [this]
    exact List.prefix_append _ _
  rw [hpre]
  have hlen : 1 ≤ id.data.length := by
    cases hi : id.data with
    | nil => exact absurd hi hid
    | cons a t => simp
  have : ("## Image: ").data.length = 10 := by decide
  simp only [List.length_append, this, Bool.true_and, decide_eq_true_eq]
  omega


/-- The common field lines never match the heading regex. -/
theorem no_heading_common (img : Image) :
    ∀ l ∈ commonFieldLines img, headingLineB l = false := by
  intro l hl
  simp only [commonFieldLines, List.mem_cons, List.not_mem_nil, or_false] at hl
  rcases hl with h | h | h | h | h <;> subst h <;>
    exact headingLineB_append_false _ _ '*' rfl (by decide)

/-- The kind-specific lines never match the heading regex. -/
theorem no_heading_kind (img : Image) :
    ∀ l ∈ kindLines img, headingLineB l = false := by
  intro l hl
  by_cases h2 : img.typ = imageType2D
  · simp only [kindLines, h2, if_true, List.mem_cons, List.not_mem_nil, or_false] at hl
    rcases hl with h | h | h | h <;> subst h <;>
      exact headingLineB_append_false _ _ '*' rfl (by decide)
  · by_cases h3 : img.typ = imageType3D
    · rw [kindLines, if_neg h2, if_pos h3] at hl
      rcases List.mem_append.mp hl with h | h
      · rcases List.mem_append.mp h with h | h
        · rcases List.mem_append.mp h with h | h
          · rcases List.mem_append.mp h with h | h
            · simp only [List.mem_singleton] at h
              subst h; exact headingLineB_append_false _ _ '*' rfl (by decide)
            · by_cases hm : img.modelFilePath ≠ ""
              · rw [if_pos hm] at h
                simp only [List.mem_cons, List.not_mem_nil, or_false] at h
                rcases h with h | h <;> subst h <;>
                  exact headingLineB_append_false _ _ '*' rfl (by decide)
              · rw [if_neg hm] at h
                simp at h
          · simp only [List.mem_singleton] at h
            subst h; decide
        · rcases List.mem_map.mp h with ⟨p, _, he⟩
          subst he; exact headingLineB_append_false _ _ '-' rfl (by decide)
      · simp only [List.mem_singleton] at h
        subst h; exact headingLineB_append_false _ _ '*' rfl (by decide)
    · simp [kindLines, h2, h3] at hl

/-- The manual tags lines never match the heading regex. -/
theorem no_heading_tags (img : Image) :
    ∀ l ∈ tagsLines img, headingLineB l = false := by
  intro l hl
  by_cases ht : 0 < img.manualTags.length
  · simp only [tagsLines, ht, if_true, List.mem_cons, List.not_mem_nil, or_false] at hl
    rcases hl with h | h
    · subst h; decide
    · subst h; exact headingLineB_append_false _ _ '*' rfl (by decide)
  · simp [tagsLines, ht] at hl

/-- The AI block lines never match the heading regex. -/
theorem no_heading_ai (o : Option AIAnalysis) :
    ∀ l ∈ aiBlockLines o, headingLineB l = false := by
  intro l hl
  cases o with
  | none => simp [aiBlockLines] at hl
  | some ai =>
    have hopt : ∀ (P : Prop) (inst : Decidable P) (s : String),
        l ∈ (@ite _ P inst [s] ([] : List String)) → l = s := by
      intro P inst s hmem
      by_cases hP : P
      · simp [hP] at hmem; exact hmem
      · simp [hP] at hmem
    have hl2 : l ∈ aiAnalysisLines ai := hl
    unfold aiAnalysisLines at hl2
    rcases List.mem_append.mp hl2 with h | h
    · rcases List.mem_append.mp h with h | h
      · rcases List.mem_append.mp h with h | h
        · rcases List.mem_append.mp h with h | h
          · rcases List.mem_append.mp h with h | h
            · rcases List.mem_append.mp h with h | h
              · rcases List.mem_append.mp h with h | h
                · rcases List.mem_append.mp h with h | h
                  · simp only [List.mem_cons, List.not_mem_nil, or_false] at h
                    rcases h with h | h | h | h | h
                    · subst h; decide
                    · subst h; decide
                    · subst h; exact headingLineB_append_false _ _ '-' rfl (by decide)
                    · subst h; exact headingLineB_append_false _ _ '-' rfl (by decide)
                    · subst h; exact headingLineB_append_false _ _ '-' rfl (by decide)
                  · rw [hopt _ _ _ h]
                    exact headingLineB_append_false _ _ '-' rfl (by decide)
                · rw [hopt _ _ _ h]
                  exact headingLineB_append_false _ _ '-' rfl (by decide)
              · rw [hopt _ _ _ h]
                exact headingLineB_append_false _ _ '-' rfl (by decide)
            · rw [hopt _ _ _ h]
              exact headingLineB_append_false _ _ '-' rfl (by decide)
          · rw [hopt _ _ _ h]
            exact headingLineB_append_false _ _ '-' rfl (by decide)
        · rw [hopt _ _ _ h]
          exact headingLineB_append_false _ _ '-' rfl (by decide)
      · rw [hopt _ _ _ h]
        exact headingLineB_append_false _ _ '-' rfl (by decide)
    · rw [hopt _ _ _ h]
      exact headingLineB_append_false _ _ '-' rfl (by decide)

/-- No line of the body of an entry matches the heading regex. -/
theorem entryBody_no_heading (img : Image) :
    ∀ l ∈ entryBodyLines img, headingLineB l = false := by
  intro l hl
  have hl2 : l ∈ (((([""] ++ commonFieldLines img) ++ kindLines img) ++ tagsLines img) ++
      aiBlockLines img.aiAnalysis) ++ ["", "---"] := hl
  rcases List.mem_append.mp hl2 with h | h
  · rcases List.mem_append.mp h with h | h
    · rcases List.mem_append.mp h with h | h
      · rcases List.mem_append.mp h with h | h
        · rcases List.mem_append.mp h with h | h
          · simp only [List.mem_singleton] at h; subst h; decide
          · exact no_heading_common img l h
        · exact no_heading_kind img l h
      · exact no_heading_tags img l h
    · exact no_heading_ai img.aiAnalysis l h
  · simp only [List.mem_cons, List.not_mem_nil, or_false] at h
    rcases h with h | h
    · subst h; decide
    · subst h; decide

/-- One serialized entry contributes exactly one heading position: the
heading line right after the leading blank line. -/
theorem entry_lineHeadingPositions (img : Image) (i : Nat) (hid : img.id.data ≠ []) :
    lineHeadingPositions (buildMarkdownEntryLines img) i = [i + 1] := by
  rw [buildMarkdownEntryLines, lineHeadingPositions, lineHeadingPositions]
  rw [headingLineB_heading img.id hid]
  have h0 : headingLineB "" = false := by decide
  rw [h0]
  simp only [Bool.false_eq_true, if_false, if_true, List.nil_append]
  have hbody := lineHeadingPositions_none (entryBodyLines img)
  rw [hbody _ (entryBody_no_heading img)]
  simp

/-- A line of the concatenated entries comes from some entry. -/
theorem mem_allEntryLines : ∀ (imgs : List Image) (l : String),
    l ∈ allEntryLines imgs → ∃ img, img ∈ imgs ∧ l ∈ buildMarkdownEntryLines img := by
  intro imgs
  induction imgs with
  | nil => intro l h; simp [allEntryLines] at h
  | cons img rest ih =>
    intro l h
    rcases List.mem_append.mp h with h | h
    · exact ⟨img, by simp, h⟩
    · rcases ih l h with ⟨m, hm, hl⟩
      exact ⟨m, by simp [hm], hl⟩

/-- The concatenated entries contribute one heading position per entry. -/
theorem allEntry_lhp_length : ∀ (imgs : List Image) (i : Nat),
    (∀ img ∈ imgs, img.id.data ≠ []) →
    (lineHeadingPositions (allEntryLines imgs) i).length = imgs.length := by
  intro imgs
  induction imgs with
  | nil => intro i _; rfl
  | cons img rest ih =>
    intro i h
    rw [allEntryLines, lineHeadingPositions_append]
    rw [entry_lineHeadingPositions img i (h img (by simp))]
    simp only [List.length_append, List.length_cons, List.length_nil]
    rw [ih _ (fun m hm => h m (by simp [hm]))]
    omega

/-- Slicing yields one section per heading position. -/
theorem sectionsFrom_length (content : List Char) :
    ∀ (ps : List Nat), (sectionsFrom content ps).length = ps.length := by
  intro ps
  induction ps with
  | nil => rfl
  | cons p rest ih =>
    cases rest with
    | nil => rfl
    | cons q r =>
      rw [sectionsFrom]
      simp only [List.length_cons]
      simpa using ih

/-- C3: appending M records (the lock serializes the M concurrent appends
into this order) yields a ledger whose parse returns exactly M summaries —
one heading per record, none lost, none interleaved. Hypotheses: ids are
non-empty and the serialized lines are newline-free (well-formed entries). -/
theorem C3_concurrent_appends_parse_exact :
    ∀ (imgs : List Image) (now : String),
      (∀ c ∈ now.data, c ≠ '\n') →
      (∀ img ∈ imgs, img.id.data ≠ [] ∧
        ∀ l ∈ buildMarkdownEntryLines img, ∀ c ∈ l.data, c ≠ '\n') →
      (GetAllImages (appendAll (initialIndexContent now) imgs)).length = imgs.length := by
  intro imgs now hnow h
  have hdata : (appendAll (initialIndexContent now) imgs).data =
      charsOfLines (["# Image Warehouse Index", "Last Updated: " ++ now, "", "---"] ++
        allEntryLines imgs) := by
    rw [appendAll_data, charsOfLines_append]
    rfl
  have hlines : ∀ l ∈ (["# Image Warehouse Index", "Last Updated: " ++ now, "", "---"] ++
      allEntryLines imgs), ∀ c ∈ l.data, c ≠ '\n' := by
    intro l hl
    rcases List.mem_append.mp hl with h1 | h1
    · simp only [List.mem_cons, List.not_mem_nil, or_false] at h1
      rcases h1 with h1 | h1 | h1 | h1
      · subst h1; decide
      · subst h1
        intro c hc
        rw [stringAppend_data] at hc
        rcases List.mem_append.mp hc with hc | hc
        · have hlit : ∀ d ∈ ("Last Updated: ").data, d ≠ '\n' := by decide
          exact hlit c hc
        · exact hnow c hc
      · subst h1; intro c hc; simp at hc
      · subst h1; decide
    · rcases mem_allEntryLines imgs l h1 with ⟨m, hm, hl2⟩
      exact (h m hm).2 l hl2
  rw [GetAllImages, hdata, headingPositions_lines _ hlines, List.length_map,
    sectionsFrom_length, lineHeadingPositions_append]
  have hinit : lineHeadingPositions
      ["# Image Warehouse Index", "Last Updated: " ++ now, "", "---"] 0 = [] := by
    apply lineHeadingPositions_none
    intro l hl
    simp only [List.mem_cons, List.not_mem_nil, or_false] at hl
    rcases hl with h1 | h1 | h1 | h1
    · subst h1; decide
    · subst h1; exact headingLineB_append_false _ _ 'L' rfl (by decide)
    · subst h1; decide
    · subst h1; decide
  rw [hinit]
  simp only [List.nil_append, List.length_nil]
  exact allEntry_lhp_length imgs _ (fun m hm => (h m hm).1)

/-- C3 witness: two concrete records append to a ledger that parses back to
exactly two summaries. -/
theorem C3_witness :
    (GetAllImages (appendAll (initialIndexContent "2024-01-01 00:00:00")
      [c4WitnessImage, c4CexImage])).length = 2 :=
  C3_concurrent_appends_parse_exact [c4WitnessImage, c4CexImage] "2024-01-01 00:00:00"
    (by decide) (by decide)

/-- A pattern that mismatches within `m` is not a prefix of any extension of
`m`. -/
theorem not_prefix_of_mismatchWithin :
    ∀ (pat m rest : List Char), mismatchWithin pat m = true →
      pat.isPrefixOf (m ++ rest) = false := by
  intro pat
  induction pat with
  | nil => intro m rest h; cases m <;> simp [mismatchWithin] at h
  | cons p pr ih =>
    intro m rest h
    cases m with
    | nil => simp [mismatchWithin] at h
    | cons c mt =>
      simp only [mismatchWithin, Bool.or_eq_true, bne_iff_ne] at h
      simp only [List.cons_append, List.isPrefixOf, List.append_eq]
      rcases h with h | h
      · have : (p == c) = false := by simpa using h
        simp [this]
      · rw [ih mt rest h]
        simp

/-- Scanning a chunk the pattern cannot start in reaches the rest
unchanged. -/
theorem ffc_skip_noStartIn (pat : List Char) :
    ∀ (m rest : List Char), noStartIn pat m = true →
      findFieldCapture pat (m ++ rest) = findFieldCapture pat rest := by
  intro m
  induction m with
  | nil => intro rest _; rfl
  | cons c mt ih =>
    intro rest h
    simp only [noStartIn, Bool.and_eq_true] at h
    have hpre := not_prefix_of_mismatchWithin pat (c :: mt) rest h.1
    simp only [List.cons_append] at hpre ⊢
    rw [findFieldCapture, hpre]
    simp only [Bool.false_eq_true, if_false]
    exact ih rest h.2

/-- A star-free chunk cannot start a pattern that begins with a star. -/
theorem noStartIn_of_noStar (pat : List Char) (p : List Char) (hpat : pat = '*' :: p) :
    ∀ (m : List Char), (∀ c ∈ m, c ≠ '*') → noStartIn pat m = true := by
  intro m
  induction m with
  | nil => intro _; rfl
  | cons c mt ih =>
    intro h
    simp only [noStartIn, Bool.and_eq_true]
    refine ⟨?_, ih (fun d hd => h d (by simp [hd]))⟩
    subst hpat
    simp only [mismatchWithin, Bool.or_eq_true, bne_iff_ne]
    exact Or.inl (fun he => (h c (by simp)) he.symm)

/-- takeWhile up to the first newline of a newline-free chunk. -/
theorem takeWhile_append_nl (v ys : List Char) (hv : ∀ c ∈ v, c ≠ '\n') :
    (v ++ '\n' :: ys).takeWhile (fun d => d != '\n') = v := by
  induction v with
  | nil => simp [List.takeWhile]
  | cons c t ih =>
    have hc : (c != '\n') = true := by simpa using hv c (by simp)
    simp only [List.cons_append, List.takeWhile, hc, List.append_eq]
    rw [ih (fun d hd => hv d (by simp [hd]))]

/-- matchTail on a space followed by a value starting with a non-space
captures the value up to the line end. -/
theorem matchTail_space_value (c : Char) (t ys : List Char)
    (hc : goIsSpace c = false) (hnl : ∀ x ∈ c :: t, x ≠ '\n') :
    matchTail (' ' :: c :: (t ++ '\n' :: ys)) = some (c :: t) := by
  have hval : matchTail (c :: (t ++ '\n' :: ys)) = some (c :: t) := by
    rw [matchTail, if_neg (by simp [hc])]
    have := takeWhile_append_nl (c :: t) ys hnl
    simpa using this
  rw [matchTail, if_pos (by decide), hval]

/-- The scanner hits the field line: pattern, one space, then a value whose
first character is not whitespace, then the newline; the capture is the
value. -/
theorem ffc_hit (p : Char) (pr : List Char) (c : Char) (t ys : List Char)
    (hc : goIsSpace c = false) (hnl : ∀ x ∈ c :: t, x ≠ '\n') :
    findFieldCapture (p :: pr) ((p :: pr) ++ ' ' :: c :: (t ++ '\n' :: ys)) =
      some (c :: t) := by
  simp only [List.cons_append, findFieldCapture, List.append_eq]
  have hpre : (p :: pr).isPrefixOf (p :: (pr ++ ' ' :: c :: (t ++ '\n' :: ys))) = true := by
    apply List.isPrefixOf_iff_prefix.mpr
    have := List.prefix_append (p :: pr) (' ' :: c :: (t ++ '\n' :: ys))
    simpa using this
  rw [hpre]
  simp only [if_true]
  have hdrop : List.drop (p :: pr).length (p :: (pr ++ ' ' :: c :: (t ++ '\n' :: ys))) =
      ' ' :: c :: (t ++ '\n' :: ys) := by
    have := List.drop_left (p :: pr) (' ' :: c :: (t ++ '\n' :: ys))
    simpa using this
  rw [hdrop, matchTail_space_value c t ys hc hnl]

/-- The scanner walks straight through a skippable line (including its
newline). -/
theorem ffc_skip_line (pat : List Char) (hp : pat.head? = some '*')
    (l : String) (rest : List Char) (hl : Skippable pat l) :
    findFieldCapture pat (l.data ++ '\n' :: rest) = findFieldCapture pat rest := by
  rcases hl with ⟨m, v, hdata, hm, hv⟩ | hfull
  · cases pat with
    | nil => simp at hp
    | cons p pr =>
      have hps : p = '*' := by simpa using hp
      rw [hdata, List.append_assoc, ffc_skip_noStartIn (p :: pr) m _ hm]
      have hsplit : v ++ '\n' :: rest = (v ++ ['\n']) ++ rest := by simp
      rw [hsplit]
      apply ffc_skip_noStartIn
      apply noStartIn_of_noStar (p :: pr) pr (by rw [hps])
      intro d hd
      rcases List.mem_append.mp hd with hd | hd
      · exact hv d hd
      · simp only [List.mem_singleton] at hd
        subst hd; decide
  · have hsplit : l.data ++ '\n' :: rest = (l.data ++ ['\n']) ++ rest := by simp
    rw [hsplit]
    exact ffc_skip_noStartIn pat _ rest hfull

/-- The scanner walks straight through a list of skippable lines. -/
theorem ffc_skip_lines (pat : List Char) (hp : pat.head? = some '*') :
    ∀ (ls : List String) (rest : List Char), (∀ l ∈ ls, Skippable pat l) →
      findFieldCapture pat (charsOfLines ls ++ rest) = findFieldCapture pat rest := by
  intro ls
  induction ls with
  | nil => intro rest _; rfl
  | cons l lt ih =>
    intro rest h
    have h1 : charsOfLines (l :: lt) ++ rest = l.data ++ '\n' :: (charsOfLines lt ++ rest) := by
      simp [charsOfLines]
    rw [h1, ffc_skip_line pat hp l _ (h l (by simp))]
    exact ih rest (fun m hm => h m (by simp [hm]))

/-- Scanning laid-out lines where every line is skippable finds nothing. -/
theorem ffc_lines_none (pat : List Char) (hp : pat.head? = some '*')
    (ls : List String) (h : ∀ l ∈ ls, Skippable pat l) :
    findFieldCapture pat (charsOfLines ls) = none := by
  have h1 : charsOfLines ls = charsOfLines ls ++ [] := by simp
  rw [h1, ffc_skip_lines pat hp ls [] h]
  rfl

/-- Scanning laid-out lines: skippable prefix lines, then the field line
(pattern, one space, the value); the capture is the value. -/
theorem ffc_lines_found (pat : List Char) (hp : pat.head? = some '*')
    (pre : List String) (hpre : ∀ l ∈ pre, Skippable pat l)
    (l : String) (post : List String) (c : Char) (t : List Char)
    (hl : l.data = pat ++ ' ' :: c :: t)
    (hc : goIsSpace c = false) (hnl : ∀ x ∈ c :: t, x ≠ '\n') :
    findFieldCapture pat (charsOfLines (pre ++ l :: post)) = some (c :: t) := by
  rw [charsOfLines_append, ffc_skip_lines pat hp pre _ hpre]
  have h1 : charsOfLines (l :: post) = l.data ++ '\n' :: charsOfLines post := by
    simp [charsOfLines]
  rw [h1, hl]
  cases pat with
  | nil => simp at hp
  | cons p pr =>
    have h2 : ((p :: pr) ++ ' ' :: c :: t) ++ '\n' :: charsOfLines post =
        (p :: pr) ++ ' ' :: c :: (t ++ '\n' :: charsOfLines post) := by
      simp
    rw [h2]
    exact ffc_hit p pr c t (charsOfLines post) hc hnl

/-- dropWhile is the identity when the head does not satisfy the predicate. -/
theorem dropWhile_eq_self_of_head (p : Char → Bool) (l : List Char)
    (h : ∀ c, l.head? = some c → p c = false) : l.dropWhile p = l := by
  cases l with
  | nil => rfl
  | cons c t =>
    have := h c rfl
    simp [List.dropWhile, this]

/-- TrimSpace is the identity on a text with non-space first and last
characters. -/
theorem trimChars_eq_self (v : List Char)
    (hh : ∀ c, v.head? = some c → goIsSpace c = false)
    (hl : ∀ c, v.getLast? = some c → goIsSpace c = false) :
    trimChars v = v := by
  unfold trimChars
  rw [dropWhile_eq_self_of_head goIsSpace v hh]
  rw [dropWhile_eq_self_of_head goIsSpace v.reverse
    (fun c hc => hl c (by rwa [List.head?_reverse] at hc))]
  exact List.reverse_reverse v

/-- The dropWhile result is never longer than the input. -/
theorem length_dropWhile_le (p : Char → Bool) (l : List Char) :
    (l.dropWhile p).length ≤ l.length :=
  (List.dropWhile_sublist p).length_le

/-- A TrimSpace-invariant non-empty text starts with a non-space
character. -/
theorem head_nospace_of_trim (v : List Char) (ht : trimChars v = v) :
    ∀ c, v.head? = some c → goIsSpace c = false := by
  intro c hc
  cases v with
  | nil => simp at hc
  | cons a t =>
    have ha : a = c := by simpa using hc
    subst ha
    by_contra hsp
    have hsp2 : goIsSpace a = true := by simpa using hsp
    have hlen : (trimChars (a :: t)).length < (a :: t).length := by
      unfold trimChars
      have h1 : (a :: t).dropWhile goIsSpace = t.dropWhile goIsSpace := by
        simp [List.dropWhile, hsp2]
      rw [h1]
      have h2 := length_dropWhile_le goIsSpace (t.dropWhile goIsSpace).reverse
      have h3 := length_dropWhile_le goIsSpace t
      simp only [List.length_reverse] at h2 ⊢
      simp only [List.length_cons]
      omega
    rw [ht] at hlen
    omega

/-- A TrimSpace-invariant non-empty text ends with a non-space character. -/
theorem last_nospace_of_trim (v : List Char) (ht : trimChars v = v) :
    ∀ c, v.getLast? = some c → goIsSpace c = false := by
  intro c hc
  by_contra hsp
  have hsp2 : goIsSpace c = true := by simpa using hsp
  have hvne : v ≠ [] := by intro h; subst h; simp at hc
  have hw : v.reverse.head? = some c := by rwa [List.head?_reverse]
  have hlen : (trimChars v).length < v.length := by
    unfold trimChars
    have hle1 := length_dropWhile_le goIsSpace v
    rcases hd : v.dropWhile goIsSpace with _ | ⟨a, t⟩
    · have h0 : v.length ≠ 0 := by
        intro h; exact hvne (List.length_eq_zero.mp h)
      simp [List.dropWhile]
      omega
    · have hsuff : v.dropWhile goIsSpace <:+ v := List.dropWhile_suffix goIsSpace
      rw [hd] at hsuff
      obtain ⟨w, hw2⟩ := hsuff
      have hlast : (a :: t).getLast? = some c := by
        have h5 := @List.getLast?_append_of_ne_nil _ w (a :: t) (by simp)
        rw [hw2] at h5
        exact h5.symm.trans hc
      have hrev : (a :: t).reverse.head? = some c := by rwa [List.head?_reverse]
      have hdrop2 : ((a :: t).reverse).dropWhile goIsSpace =
          ((a :: t).reverse).tail.dropWhile goIsSpace := by
        cases hr : (a :: t).reverse with
        | nil => simp at hr
        | cons b u =>
          rw [hr] at hrev
          have hb : b = c := by simpa using hrev
          subst hb
          simp [List.dropWhile, hsp2]
      rw [hdrop2]
      have h2 := length_dropWhile_le goIsSpace ((a :: t).reverse).tail
      have h3 : ((a :: t).reverse).tail.length = t.length := by
        simp [List.length_tail]
      have h4 : (a :: t).length ≤ v.length := by
        rw [← hd]; exact length_dropWhile_le _ _
      simp only [List.length_reverse]
      simp only [List.length_cons] at h4
      omega
  rw [ht] at hlen
  omega

/-- Every character of a comma-joined list comes from an element or from the
separator. -/
theorem mem_joinComma : ∀ (ts : List String) (c : Char), c ∈ (joinComma ts).data →
    (∃ t ∈ ts, c ∈ t.data) ∨ c = ',' ∨ c = ' ' := by
  intro ts
  induction ts with
  | nil => intro c hc; simp [joinComma] at hc
  | cons t rest ih =>
    intro c hc
    cases rest with
    | nil =>
      left; exact ⟨t, by simp, by simpa [joinComma] using hc⟩
    | cons u us =>
      rw [show joinComma (t :: u :: us) = t ++ ", " ++ joinComma (u :: us) from rfl] at hc
      rw [stringAppend_data, stringAppend_data] at hc
      rcases List.mem_append.mp hc with hc | hc
      · rcases List.mem_append.mp hc with hc | hc
        · left; exact ⟨t, by simp, hc⟩
        · right
          have hsep : ∀ d ∈ (", ").data, d = ',' ∨ d = ' ' := by decide
          exact hsep c hc
      · rcases ih c hc with ⟨m, hm, hmc⟩ | h
        · left; exact ⟨m, by simp [hm], hmc⟩
        · right; exact h

/-- A comma-joined list of good tags is non-empty, starts and ends with
non-space characters, and is TrimSpace-invariant. -/
theorem joinComma_good : ∀ (ts : List String), ts ≠ [] → (∀ t ∈ ts, goodField t) →
    (joinComma ts).data ≠ [] ∧
    (∀ c, (joinComma ts).data.head? = some c → goIsSpace c = false) ∧
    (∀ c, (joinComma ts).data.getLast? = some c → goIsSpace c = false) := by
  intro ts
  induction ts with
  | nil => intro h; exact absurd rfl h
  | cons t rest ih =>
    intro _ h
    have hgt := h t (by simp)
    obtain ⟨hben, hne, htrim⟩ := hgt
    cases rest with
    | nil =>
      refine ⟨hne, head_nospace_of_trim t.data htrim, last_nospace_of_trim t.data htrim⟩
    | cons u us =>
      have hrest := ih (by simp) (fun m hm => h m (by simp [hm]))
      obtain ⟨hne2, hh2, hl2⟩ := hrest
      have hdata : (joinComma (t :: u :: us)).data =
          t.data ++ (',' :: ' ' :: (joinComma (u :: us)).data) := by
        rw [show joinComma (t :: u :: us) = t ++ ", " ++ joinComma (u :: us) from rfl]
        rw [stringAppend_data, stringAppend_data]
        simp
      refine ⟨?_, ?_, ?_⟩
      · rw [hdata]; simp
      · intro c hc
        rw [hdata] at hc
        cases hdtc : t.data with
        | nil => exact absurd hdtc hne
        | cons a t2 =>
          rw [hdtc] at hc
          simp only [List.cons_append, List.head?_cons] at hc
          apply head_nospace_of_trim t.data htrim
          rw [hdtc]
          simpa using hc
      · intro c hc
        rw [hdata] at hc
        rw [show (',' :: ' ' :: (joinComma (u :: us)).data) =
            [',', ' '] ++ (joinComma (u :: us)).data from rfl] at hc
        rw [← List.append_assoc] at hc
        rw [List.getLast?_append_of_ne_nil _ hne2] at hc
        exact hl2 c hc

/-- Splitting a separator-free text returns the text alone. -/
theorem splitCommaSpace_no_sep : ∀ (v : List Char), containsCommaSpace v = false →
    splitCommaSpace v = [v] := by
  intro v
  induction v with
  | nil => intro _; rfl
  | cons c t ih =>
    intro h
    cases t with
    | nil => rfl
    | cons d u =>
      rw [containsCommaSpace] at h
      simp only [Bool.or_eq_false_iff] at h
      rw [splitCommaSpace, if_neg (by simp [h.1]), ih h.2]
  termination_by v => v.length

/-- Splitting a separator-free segment followed by the separator peels the
segment off. -/
theorem splitCommaSpace_peel : ∀ (v rest : List Char), containsCommaSpace v = false →
    splitCommaSpace (v ++ ',' :: ' ' :: rest) = v :: splitCommaSpace rest := by
  intro v
  induction v with
  | nil =>
    intro rest _
    rw [List.nil_append, splitCommaSpace]
    simp
  | cons c t ih =>
    intro rest h
    cases t with
    | nil =>
      have hc : ¬(c == ',' && (',' : Char) == ' ') = true := by simp
      rw [List.cons_append, List.nil_append, splitCommaSpace, if_neg (by simp)]
      rw [splitCommaSpace]
      simp
    | cons d u =>
      rw [containsCommaSpace] at h
      simp only [Bool.or_eq_false_iff] at h
      have h1 : (c :: d :: u) ++ ',' :: ' ' :: rest =
          c :: d :: (u ++ ',' :: ' ' :: rest) := by simp
      rw [h1, splitCommaSpace, if_neg (by simp [h.1])]
      have h2 : d :: (u ++ ',' :: ' ' :: rest) = (d :: u) ++ ',' :: ' ' :: rest := by simp
      rw [h2, ih rest h.2]

/-- Splitting a comma-joined list of separator-free tags recovers the
tags. -/
theorem splitCommaSpace_joinComma : ∀ (ts : List String), ts ≠ [] →
    (∀ t ∈ ts, containsCommaSpace t.data = false) →
    (splitCommaSpace (joinComma ts).data).map String.mk = ts := by
  intro ts
  induction ts with
  | nil => intro h _; exact absurd rfl h
  | cons t rest ih =>
    intro _ h
    cases rest with
    | nil =>
      rw [show joinComma [t] = t from rfl]
      rw [splitCommaSpace_no_sep t.data (h t (by simp))]
      simp [stringMk_data]
    | cons u us =>
      have hdata : (joinComma (t :: u :: us)).data =
          t.data ++ ',' :: ' ' :: (joinComma (u :: us)).data := by
        rw [show joinComma (t :: u :: us) = t ++ ", " ++ joinComma (u :: us) from rfl]
        rw [stringAppend_data, stringAppend_data]
        simp
      rw [hdata, splitCommaSpace_peel t.data _ (h t (by simp))]
      rw [List.map_cons, stringMk_data]
      rw [ih (by simp) (fun m hm => h m (by simp [hm]))]

/-- A star-free line is skippable for any star-led pattern. -/
theorem skippable_noStar (pat : List Char) (l : String)
    (h : ∀ c ∈ l.data, c ≠ '*') : Skippable pat l :=
  Or.inl ⟨[], l.data, (List.nil_append _).symm, rfl, h⟩

/-- A marker line with a star-free value is skippable when the pattern can
start nowhere in the marker. -/
theorem skippable_marker (pat : List Char) (m v : String)
    (hm : noStartIn pat m.data = true) (hv : ∀ c ∈ v.data, c ≠ '*') :
    Skippable pat (m ++ v) :=
  Or.inl ⟨m.data, v.data, stringAppend_data m v, hm, hv⟩

/-- A fully concrete line is skippable when the pattern can start nowhere in
it. -/
theorem skippable_concrete (pat : List Char) (l : String)
    (h : noStartIn pat l.data = true) : Skippable pat l :=
  Or.inl ⟨l.data, [], (List.append_nil _).symm, h, by simp⟩

/-- A line is skippable when the pattern can start nowhere in the line
followed by its newline. -/
theorem skippable_full (pat : List Char) (l : String)
    (h : noStartIn pat (l.data ++ ['\n']) = true) : Skippable pat l :=
  Or.inr h

/-- The section lines of a benign 2D record, flattened. -/
theorem sectionLines_2D (img : Image) (h2 : img.typ = imageType2D) :
    sectionLines img =
      [("## Image: " ++ img.id), "",
       "**Title:** " ++ img.title,
       "**Artist:** " ++ img.artist,
       "**Uploaded:** " ++ img.uploadedAt,
       "**Type:** " ++ img.typ,
       "**Category:** " ++ img.category,
       "**File Path:** " ++ img.filePath,
       "**Thumbnail:** " ++ img.thumbnailPath,
       "**Dimensions:** " ++ (toString img.width ++ "x" ++ toString img.height),
       "**File Size:** " ++ (img.fileSizeMB ++ " MB")] ++
      (tagsLines img ++ (aiBlockLines img.aiAnalysis ++ ["", "---"])) := by
  rw [sectionLines, entryBodyLines, commonFieldLines, kindLines, if_pos h2]
  simp

/-- extractField returns the value once the scanner found it and the value is
trim-invariant. -/
theorem extractField_of_found (sec : List Char) (f : String) (v : String)
    (hfound : findFieldCapture (fieldPattern f) sec = some v.data)
    (htrim : trimChars v.data = v.data) :
    extractField sec f = v := by
  rw [extractField, hfound]
  show String.mk (trimChars v.data) = v
  rw [htrim, stringMk_data]

/-- extractField returns the empty string when the scanner finds nothing. -/
theorem extractField_of_none (sec : List Char) (f : String)
    (hnone : findFieldCapture (fieldPattern f) sec = none) :
    extractField sec f = "" := by
  rw [extractField, hnone]

/-- The scanner finds a well-shaped field line: skippable prefix, marker
`pattern ++ " "`, then a benign trim-invariant non-empty value. -/
theorem ffc_found_value (pat : List Char) (hp : pat.head? = some '*')
    (pre : List String) (hpre : ∀ l ∈ pre, Skippable pat l)
    (m v : String) (post : List String)
    (hm : m.data = pat ++ [' '])
    (hv : v.data ≠ []) (htrim : trimChars v.data = v.data)
    (hnl : ∀ x ∈ v.data, x ≠ '\n') :
    findFieldCapture pat (charsOfLines (pre ++ (m ++ v) :: post)) = some v.data := by
  cases hd : v.data with
  | nil => exact absurd hd hv
  | cons c t =>
    apply ffc_lines_found pat hp pre hpre (m ++ v) post c t
    · rw [stringAppend_data, hm, hd]
      simp
    · exact head_nospace_of_trim v.data htrim c (by rw [hd]; rfl)
    · intro x hx
      rw [← hd] at hx
      exact hnl x hx

/-- The heading line of a benign record is star-free, hence skippable. -/
theorem skippable_heading (pat : List Char) (img : Image) (hid : noNlStar img.id) :
    Skippable pat ("## Image: " ++ img.id) := by
  apply skippable_noStar
  intro c hc
  rw [stringAppend_data] at hc
  rcases List.mem_append.mp hc with hc | hc
  · have hlit : ∀ d ∈ ("## Image: ").data, d ≠ '*' := by decide
    exact hlit c hc
  · exact (hid c hc).2

/-- Title extraction from a benign 2D section. -/
theorem extract2D_title (img : Image) (hb : benign2D img) :
    extractField (charsOfLines (sectionLines img)) "Title" = img.title := by
  obtain ⟨h2, hid, hidne, ⟨htnl, htne, httr⟩, hrest⟩ := hb
  rw [sectionLines_2D img h2]
  apply extractField_of_found _ _ img.title _ httr
  exact ffc_found_value (fieldPattern "Title") (by decide)
    ["## Image: " ++ img.id, ""]
    (by
      intro l hl
      simp only [List.mem_cons, List.not_mem_nil, or_false] at hl
      rcases hl with h | h
      · subst h; exact skippable_heading _ img hid
      · subst h; exact skippable_noStar _ "" (by decide))
    "**Title:** " img.title
    (["**Artist:** " ++ img.artist,
      "**Uploaded:** " ++ img.uploadedAt,
      "**Type:** " ++ img.typ,
      "**Category:** " ++ img.category,
      "**File Path:** " ++ img.filePath,
      "**Thumbnail:** " ++ img.thumbnailPath,
      "**Dimensions:** " ++ (toString img.width ++ "x" ++ toString img.height),
      "**File Size:** " ++ (img.fileSizeMB ++ " MB")] ++
      (tagsLines img ++ (aiBlockLines img.aiAnalysis ++ ["", "---"])))
    (by decide) htne httr (fun x hx => (htnl x hx).1)

/-- Artist extraction from a benign 2D section. -/
theorem extract2D_artist (img : Image) (hb : benign2D img) :
    extractField (charsOfLines (sectionLines img)) "Artist" = img.artist := by
  obtain ⟨h2, hid, hidne, ⟨htnl, htne, httr⟩, ⟨hanl, hane, hatr⟩, hrest⟩ := hb
  rw [sectionLines_2D img h2]
  apply extractField_of_found _ _ img.artist _ hatr
  exact ffc_found_value (fieldPattern "Artist") (by decide)
    ["## Image: " ++ img.id, "", "**Title:** " ++ img.title]
    (by
      intro l hl
      simp only [List.mem_cons, List.not_mem_nil, or_false] at hl
      rcases hl with h | h | h
      · subst h; exact skippable_heading _ img hid
      · subst h; exact skippable_noStar _ "" (by decide)
      · subst h
        exact skippable_marker _ "**Title:** " img.title (by decide)
          (fun c hc => (htnl c hc).2))
    "**Artist:** " img.artist
    (["**Uploaded:** " ++ img.uploadedAt,
      "**Type:** " ++ img.typ,
      "**Category:** " ++ img.category,
      "**File Path:** " ++ img.filePath,
      "**Thumbnail:** " ++ img.thumbnailPath,
      "**Dimensions:** " ++ (toString img.width ++ "x" ++ toString img.height),
      "**File Size:** " ++ (img.fileSizeMB ++ " MB")] ++
      (tagsLines img ++ (aiBlockLines img.aiAnalysis ++ ["", "---"])))
    (by decide) hane hatr (fun x hx => (hanl x hx).1)

/-- Category extraction from a benign 2D section. -/
theorem extract2D_category (img : Image) (hb : benign2D img) :
    extractField (charsOfLines (sectionLines img)) "Category" = img.category := by
  obtain ⟨h2, hid, hidne, ⟨htnl, htne, httr⟩, ⟨hanl, hane, hatr⟩,
    ⟨hcnl, hcne, hctr⟩, hunl, hrest⟩ := hb
  rw [sectionLines_2D img h2]
  apply extractField_of_found _ _ img.category _ hctr
  exact ffc_found_value (fieldPattern "Category") (by decide)
    ["## Image: " ++ img.id, "", "**Title:** " ++ img.title,
     "**Artist:** " ++ img.artist, "**Uploaded:** " ++ img.uploadedAt,
     "**Type:** " ++ img.typ]
    (by
      intro l hl
      simp only [List.mem_cons, List.not_mem_nil, or_false] at hl
      rcases hl with h | h | h | h | h | h
      · subst h; exact skippable_heading _ img hid
      · subst h; exact skippable_noStar _ "" (by decide)
      · subst h
        exact skippable_marker _ "**Title:** " img.title (by decide)
          (fun c hc => (htnl c hc).2)
      · subst h
        exact skippable_marker _ "**Artist:** " img.artist (by decide)
          (fun c hc => (hanl c hc).2)
      · subst h
        exact skippable_marker _ "**Uploaded:** " img.uploadedAt (by decide)
          (fun c hc => (hunl c hc).2)
      · subst h
        rw [h2]
        exact skippable_marker _ "**Type:** " imageType2D (by decide) (by decide))
    "**Category:** " img.category
    (["**File Path:** " ++ img.filePath,
      "**Thumbnail:** " ++ img.thumbnailPath,
      "**Dimensions:** " ++ (toString img.width ++ "x" ++ toString img.height),
      "**File Size:** " ++ (img.fileSizeMB ++ " MB")] ++
      (tagsLines img ++ (aiBlockLines img.aiAnalysis ++ ["", "---"])))
    (by decide) hcne hctr (fun x hx => (hcnl x hx).1)

/-- The eleven fixed-shape lines of a benign 2D section are skippable for the
Manual Tags pattern. -/
theorem skippable_lit11_tags (img : Image) (hb : benign2D img) :
    ∀ l ∈ [("## Image: " ++ img.id), "",
      "**Title:** " ++ img.title,
      "**Artist:** " ++ img.artist,
      "**Uploaded:** " ++ img.uploadedAt,
      "**Type:** " ++ img.typ,
      "**Category:** " ++ img.category,
      "**File Path:** " ++ img.filePath,
      "**Thumbnail:** " ++ img.thumbnailPath,
      "**Dimensions:** " ++ (toString img.width ++ "x" ++ toString img.height),
      "**File Size:** " ++ (img.fileSizeMB ++ " MB")],
      Skippable (fieldPattern "Manual Tags") l := by
  obtain ⟨h2, hid, hidne, ⟨htnl, _, _⟩, ⟨hanl, _, _⟩, ⟨hcnl, _, _⟩,
    hunl, hfnl, hthnl, hwnl, hhnl, hsznl, htags, hai⟩ := hb
  intro l hl
  simp only [List.mem_cons, List.not_mem_nil, or_false] at hl
  rcases hl with h | h | h | h | h | h | h | h | h | h | h
  · subst h; exact skippable_heading _ img hid
  · subst h; exact skippable_noStar _ "" (by decide)
  · subst h
    exact skippable_marker _ "**Title:** " img.title (by decide)
      (fun c hc => (htnl c hc).2)
  · subst h
    exact skippable_marker _ "**Artist:** " img.artist (by decide)
      (fun c hc => (hanl c hc).2)
  · subst h
    exact skippable_marker _ "**Uploaded:** " img.uploadedAt (by decide)
      (fun c hc => (hunl c hc).2)
  · subst h
    rw [h2]
    exact skippable_marker _ "**Type:** " imageType2D (by decide) (by decide)
  · subst h
    exact skippable_marker _ "**Category:** " img.category (by decide)
      (fun c hc => (hcnl c hc).2)
  · subst h
    exact skippable_marker _ "**File Path:** " img.filePath (by decide)
      (fun c hc => (hfnl c hc).2)
  · subst h
    exact skippable_marker _ "**Thumbnail:** " img.thumbnailPath (by decide)
      (fun c hc => (hthnl c hc).2)
  · subst h
    apply skippable_marker _ "**Dimensions:** "
      (toString img.width ++ "x" ++ toString img.height) (by decide)
    intro c hc
    rw [stringAppend_data, stringAppend_data] at hc
    rcases List.mem_append.mp hc with hc | hc
    · rcases List.mem_append.mp hc with hc | hc
      · exact (hwnl c hc).2
      · have : ∀ d ∈ ("x").data, d ≠ '*' := by decide
        exact this c hc
    · exact (hhnl c hc).2
  · subst h
    apply skippable_marker _ "**File Size:** " (img.fileSizeMB ++ " MB") (by decide)
    intro c hc
    rw [stringAppend_data] at hc
    rcases List.mem_append.mp hc with hc | hc
    · exact (hsznl c hc).2
    · have : ∀ d ∈ (" MB").data, d ≠ '*' := by decide
      exact this c hc

/-- The AI block lines are skippable for the Manual Tags pattern. -/
theorem skippable_ai_tags (o : Option AIAnalysis) (hb : benignAIOpt o) :
    ∀ l ∈ aiBlockLines o, Skippable (fieldPattern "Manual Tags") l := by
  intro l hl
  cases o with
  | none => simp [aiBlockLines] at hl
  | some ai =>
    obtain ⟨hdesc, hprim, hsub, hobj, hcol, hscene, hmood, hstyle, hlight, hfeat, h3d⟩ := hb
    have hopt : ∀ (P : Prop) (inst : Decidable P) (s : String),
        l ∈ (@ite _ P inst [s] ([] : List String)) → l = s := by
      intro P inst s hmem
      by_cases hP : P
      · simp [hP] at hmem; exact hmem
      · simp [hP] at hmem
    have hjoin : ∀ (ts : List String), (∀ t ∈ ts, noNlStar t) →
        ∀ c ∈ (joinComma ts).data, c ≠ '*' := by
      intro ts hts c hc
      rcases mem_joinComma ts c hc with ⟨t, ht, htc⟩ | h | h
      · exact (hts t ht c htc).2
      · subst h; decide
      · subst h; decide
    have hl2 : l ∈ aiAnalysisLines ai := hl
    unfold aiAnalysisLines at hl2
    rcases List.mem_append.mp hl2 with h | h
    · rcases List.mem_append.mp h with h | h
      · rcases List.mem_append.mp h with h | h
        · rcases List.mem_append.mp h with h | h
          · rcases List.mem_append.mp h with h | h
            · rcases List.mem_append.mp h with h | h
              · rcases List.mem_append.mp h with h | h
                · rcases List.mem_append.mp h with h | h
                  · simp only [List.mem_cons, List.not_mem_nil, or_false] at h
                    rcases h with h | h | h | h | h
                    · subst h; exact skippable_noStar _ "" (by decide)
                    · subst h; exact skippable_full _ "**AI Analysis:**" (by decide)
                    · subst h
                      exact skippable_marker _ "- **Description:** " ai.description
                        (by decide) (fun c hc => (hdesc c hc).2)
                    · subst h
                      exact skippable_marker _ "- **Primary Category:** " ai.primaryCategory
                        (by decide) (fun c hc => (hprim c hc).2)
                    · subst h
                      exact skippable_marker _ "- **Sub-category:** " ai.subCategory
                        (by decide) (fun c hc => (hsub c hc).2)
                  · rw [hopt _ _ _ h]
                    exact skippable_marker _ "- **Objects Detected:** " (joinComma ai.objects)
                      (by decide) (hjoin ai.objects hobj)
                · rw [hopt _ _ _ h]
                  exact skippable_marker _ "- **Dominant Colors:** " (joinComma ai.colors)
                    (by decide) (hjoin ai.colors hcol)
              · rw [hopt _ _ _ h]
                exact skippable_marker _ "- **Scene Type:** " ai.sceneType
                  (by decide) (fun c hc => (hscene c hc).2)
            · rw [hopt _ _ _ h]
              exact skippable_marker _ "- **Mood:** " ai.mood
                (by decide) (fun c hc => (hmood c hc).2)
          · rw [hopt _ _ _ h]
            exact skippable_marker _ "- **Style:** " ai.style
              (by decide) (fun c hc => (hstyle c hc).2)
        · rw [hopt _ _ _ h]
          exact skippable_marker _ "- **Lighting:** " ai.lighting
            (by decide) (fun c hc => (hlight c hc).2)
      · rw [hopt _ _ _ h]
        apply skippable_marker _ "- **AI Features:** "
          (joinComma (ai.features.map (fun f => f.name ++ " (" ++ f.confidence2f ++ ")")))
          (by decide)
        apply hjoin
        intro t ht
        rcases List.mem_map.mp ht with ⟨f, hf, he⟩
        subst he
        intro c hc
        rw [stringAppend_data, stringAppend_data, stringAppend_data] at hc
        rcases List.mem_append.mp hc with hc | hc
        · rcases List.mem_append.mp hc with hc | hc
          · rcases List.mem_append.mp hc with hc | hc
            · exact (hfeat f hf).1 c hc
            · have : ∀ d ∈ (" (").data, d ≠ '\n' ∧ d ≠ '*' := by decide
              exact this c hc
          · exact (hfeat f hf).2 c hc
        · have : ∀ d ∈ (")").data, d ≠ '\n' ∧ d ≠ '*' := by decide
          exact this c hc
    · rw [hopt _ _ _ h]
      exact skippable_marker _ "- **3D Characteristics:** " ai.threeDCharacteristics
        (by decide) (fun c hc => (h3d c hc).2)

/-- Manual Tags extraction from a benign 2D section with tags: the comma-space
join of the tag list. -/
theorem extract2D_tags_present (img : Image) (hb : benign2D img)
    (hne : img.manualTags ≠ []) :
    extractField (charsOfLines (sectionLines img)) "Manual Tags" =
      joinComma img.manualTags := by
  have hlit := skippable_lit11_tags img hb
  obtain ⟨h2, hid, hidne, hT, hA, hC, hu, hf, hth, hw, hh, hsz, htags, haiB⟩ := hb
  have hgf : ∀ t ∈ img.manualTags, goodField t := fun t ht => (htags t ht).1
  obtain ⟨hjne, hjh, hjl⟩ := joinComma_good img.manualTags hne hgf
  have hjtrim := trimChars_eq_self (joinComma img.manualTags).data hjh hjl
  have hjnl : ∀ c ∈ (joinComma img.manualTags).data, c ≠ '\n' := by
    intro c hc
    rcases mem_joinComma img.manualTags c hc with ⟨t, ht, htc⟩ | h | h
    · exact ((hgf t ht).1 c htc).1
    · subst h; decide
    · subst h; decide
  rw [sectionLines_2D img h2]
  have htl : tagsLines img = ["", "**Manual Tags:** " ++ joinComma img.manualTags] := by
    unfold tagsLines
    rw [if_pos (List.length_pos.mpr hne)]
  rw [htl]
  apply extractField_of_found _ _ (joinComma img.manualTags) _ hjtrim
  exact ffc_found_value (fieldPattern "Manual Tags") (by decide)
    ([("## Image: " ++ img.id), "",
      "**Title:** " ++ img.title,
      "**Artist:** " ++ img.artist,
      "**Uploaded:** " ++ img.uploadedAt,
      "**Type:** " ++ img.typ,
      "**Category:** " ++ img.category,
      "**File Path:** " ++ img.filePath,
      "**Thumbnail:** " ++ img.thumbnailPath,
      "**Dimensions:** " ++ (toString img.width ++ "x" ++ toString img.height),
      "**File Size:** " ++ (img.fileSizeMB ++ " MB")] ++ [""])
    (by
      intro l hl
      rcases List.mem_append.mp hl with h | h
      · exact hlit l h
      · simp only [List.mem_cons, List.not_mem_nil, or_false] at h
        subst h; exact skippable_noStar _ "" (by decide))
    "**Manual Tags:** " (joinComma img.manualTags)
    (aiBlockLines img.aiAnalysis ++ ["", "---"])
    (by decide) hjne hjtrim hjnl

/-- Manual Tags extraction from a benign 2D section without tags: the scanner
finds nothing and the field is empty. -/
theorem extract2D_tags_absent (img : Image) (hb : benign2D img)
    (hno : img.manualTags = []) :
    extractField (charsOfLines (sectionLines img)) "Manual Tags" = "" := by
  have hlit := skippable_lit11_tags img hb
  have haiskip := skippable_ai_tags img.aiAnalysis
    hb.2.2.2.2.2.2.2.2.2.2.2.2.2
  have h2 := hb.1
  rw [sectionLines_2D img h2]
  have htl : tagsLines img = [] := by
    unfold tagsLines
    rw [hno]
    rfl
  rw [htl, List.nil_append]
  apply extractField_of_none
  apply ffc_lines_none (fieldPattern "Manual Tags") (by decide)
  intro l hl
  rcases List.mem_append.mp hl with h | h
  · exact hlit l h
  · rcases List.mem_append.mp h with h | h
    · exact haiskip l h
    · simp only [List.mem_cons, List.not_mem_nil, or_false] at h
      rcases h with h | h
      · subst h; exact skippable_noStar _ "" (by decide)
      · subst h; exact skippable_noStar _ "---" (by decide)

/-- Appending two newline-free strings stays newline-free. -/
theorem noNl_append2 (m v : String) (hm : ∀ c ∈ m.data, c ≠ '\n')
    (hv : ∀ c ∈ v.data, c ≠ '\n') : ∀ c ∈ (m ++ v).data, c ≠ '\n' := by
  intro c hc
  rw [stringAppend_data] at hc
  rcases List.mem_append.mp hc with hc | hc
  · exact hm c hc
  · exact hv c hc

/-- The comma-space join of newline-free strings is newline-free. -/
theorem noNl_joinComma (ts : List String) (h : ∀ t ∈ ts, ∀ c ∈ t.data, c ≠ '\n') :
    ∀ c ∈ (joinComma ts).data, c ≠ '\n' := by
  intro c hc
  rcases mem_joinComma ts c hc with ⟨t, ht, htc⟩ | hc | hc
  · exact h t ht c htc
  · subst hc; decide
  · subst hc; decide

/-- The AI block lines of a benign analysis are newline-free. -/
theorem ai_noNl (o : Option AIAnalysis) (hb : benignAIOpt o) :
    ∀ l ∈ aiBlockLines o, ∀ c ∈ l.data, c ≠ '\n' := by
  intro l hl
  cases o with
  | none => simp [aiBlockLines] at hl
  | some ai =>
    obtain ⟨hdesc, hprim, hsub, hobj, hcol, hscene, hmood, hstyle, hlight, hfeat, h3d⟩ := hb
    have hopt : ∀ (P : Prop) (inst : Decidable P) (s : String),
        l ∈ (@ite _ P inst [s] ([] : List String)) → l = s := by
      intro P inst s hmem
      by_cases hP : P
      · simp [hP] at hmem; exact hmem
      · simp [hP] at hmem
    have hl2 : l ∈ aiAnalysisLines ai := hl
    unfold aiAnalysisLines at hl2
    rcases List.mem_append.mp hl2 with h | h
    · rcases List.mem_append.mp h with h | h
      · rcases List.mem_append.mp h with h | h
        · rcases List.mem_append.mp h with h | h
          · rcases List.mem_append.mp h with h | h
            · rcases List.mem_append.mp h with h | h
              · rcases List.mem_append.mp h with h | h
                · rcases List.mem_append.mp h with h | h
                  · simp only [List.mem_cons, List.not_mem_nil, or_false] at h
                    rcases h with h | h | h | h | h
                    · subst h; decide
                    · subst h; decide
                    · subst h
                      exact noNl_append2 _ _ (by decide) (fun c hc => (hdesc c hc).1)
                    · subst h
                      exact noNl_append2 _ _ (by decide) (fun c hc => (hprim c hc).1)
                    · subst h
                      exact noNl_append2 _ _ (by decide) (fun c hc => (hsub c hc).1)
                  · rw [hopt _ _ _ h]
                    exact noNl_append2 _ _ (by decide)
                      (noNl_joinComma ai.objects (fun t ht c hc => (hobj t ht c hc).1))
                · rw [hopt _ _ _ h]
                  exact noNl_append2 _ _ (by decide)
                    (noNl_joinComma ai.colors (fun t ht c hc => (hcol t ht c hc).1))
              · rw [hopt _ _ _ h]
                exact noNl_append2 _ _ (by decide) (fun c hc => (hscene c hc).1)
            · rw [hopt _ _ _ h]
              exact noNl_append2 _ _ (by decide) (fun c hc => (hmood c hc).1)
          · rw [hopt _ _ _ h]
            exact noNl_append2 _ _ (by decide) (fun c hc => (hstyle c hc).1)
        · rw [hopt _ _ _ h]
          exact noNl_append2 _ _ (by decide) (fun c hc => (hlight c hc).1)
      · rw [hopt _ _ _ h]
        apply noNl_append2 _ _ (by decide)
        apply noNl_joinComma
        intro t ht
        rcases List.mem_map.mp ht with ⟨f, hf, he⟩
        subst he
        intro c hc
        rw [stringAppend_data, stringAppend_data, stringAppend_data] at hc
        rcases List.mem_append.mp hc with hc | hc
        · rcases List.mem_append.mp hc with hc | hc
          · rcases List.mem_append.mp hc with hc | hc
            · exact ((hfeat f hf).1 c hc).1
            · have : ∀ d ∈ (" (").data, d ≠ '\n' := by decide
              exact this c hc
          · exact ((hfeat f hf).2 c hc).1
        · have : ∀ d ∈ (")").data, d ≠ '\n' := by decide
          exact this c hc
    · rw [hopt _ _ _ h]
      exact noNl_append2 _ _ (by decide) (fun c hc => (h3d c hc).1)

/-- Every serialized line of a benign 2D entry is newline-free. -/
theorem entryLines_noNl (img : Image) (hb : benign2D img) :
    ∀ l ∈ buildMarkdownEntryLines img, ∀ c ∈ l.data, c ≠ '\n' := by
  obtain ⟨h2, hid, hidne, ⟨htnl, _, _⟩, ⟨hanl, _, _⟩, ⟨hcnl, _, _⟩,
    hu, hf, hth, hw, hh, hsz, htags, haiB⟩ := hb
  intro l hl
  rw [buildMarkdownEntryLines] at hl
  simp only [List.mem_cons] at hl
  rcases hl with h | h | h
  · subst h; decide
  · subst h
    exact noNl_append2 "## Image: " img.id (by decide) (fun c hc => (hid c hc).1)
  · have h5 : l ∈ (((([""] ++ commonFieldLines img) ++ kindLines img) ++ tagsLines img) ++
        aiBlockLines img.aiAnalysis) ++ ["", "---"] := h
    rcases List.mem_append.mp h5 with h6 | h6
    · rcases List.mem_append.mp h6 with h6 | h6
      · rcases List.mem_append.mp h6 with h6 | h6
        · rcases List.mem_append.mp h6 with h6 | h6
          · rcases List.mem_append.mp h6 with h6 | h6
            · simp only [List.mem_singleton] at h6
              subst h6; decide
            · simp only [commonFieldLines, List.mem_cons, List.not_mem_nil, or_false] at h6
              rcases h6 with h6 | h6 | h6 | h6 | h6
              · subst h6
                exact noNl_append2 _ _ (by decide) (fun c hc => (htnl c hc).1)
              · subst h6
                exact noNl_append2 _ _ (by decide) (fun c hc => (hanl c hc).1)
              · subst h6
                exact noNl_append2 _ _ (by decide) (fun c hc => (hu c hc).1)
              · subst h6
                rw [h2]
                exact noNl_append2 _ _ (by decide) (by decide)
              · subst h6
                exact noNl_append2 _ _ (by decide) (fun c hc => (hcnl c hc).1)
          · rw [kindLines, if_pos h2] at h6
            simp only [List.mem_cons, List.not_mem_nil, or_false] at h6
            rcases h6 with h6 | h6 | h6 | h6
            · subst h6
              exact noNl_append2 _ _ (by decide) (fun c hc => (hf c hc).1)
            · subst h6
              exact noNl_append2 _ _ (by decide) (fun c hc => (hth c hc).1)
            · subst h6
              apply noNl_append2 _ _ (by decide)
              intro c hc
              rw [stringAppend_data, stringAppend_data] at hc
              rcases List.mem_append.mp hc with hc | hc
              · rcases List.mem_append.mp hc with hc | hc
                · exact (hw c hc).1
                · have : ∀ d ∈ ("x").data, d ≠ '\n' := by decide
                  exact this c hc
              · exact (hh c hc).1
            · subst h6
              apply noNl_append2 _ _ (by decide)
              intro c hc
              rw [stringAppend_data] at hc
              rcases List.mem_append.mp hc with hc | hc
              · exact (hsz c hc).1
              · have : ∀ d ∈ (" MB").data, d ≠ '\n' := by decide
                exact this c hc
        · by_cases hpos : 0 < img.manualTags.length
          · rw [tagsLines, if_pos hpos] at h6
            simp only [List.mem_cons, List.not_mem_nil, or_false] at h6
            rcases h6 with h6 | h6
            · subst h6; decide
            · subst h6
              apply noNl_append2 _ _ (by decide)
              exact noNl_joinComma img.manualTags
                (fun t ht c hc => ((htags t ht).1.1 c hc).1)
          · rw [tagsLines, if_neg hpos] at h6
            simp at h6
      · exact ai_noNl img.aiAnalysis haiB l h6
    · simp only [List.mem_cons, List.not_mem_nil, or_false] at h6
      rcases h6 with h6 | h6
      · subst h6; decide
      · subst h6; decide

/-- The heading capture of a laid-out section is the id: drop the ten marker
characters and take up to the newline. -/
theorem section_id (img : Image) (hid : ∀ c ∈ img.id.data, c ≠ '\n') :
    String.mk (((charsOfLines (sectionLines img)).drop 10).takeWhile
      (fun c => c != '\n')) = img.id := by
  have h1 : charsOfLines (sectionLines img) =
      ("## Image: ").data ++ (img.id.data ++ '\n' :: charsOfLines (entryBodyLines img)) := by
    show ("## Image: " ++ img.id).data ++ '\n' :: charsOfLines (entryBodyLines img) = _
    rw [stringAppend_data, List.append_assoc]
  rw [h1]
  have h3 := List.drop_left ("## Image: ").data
    (img.id.data ++ '\n' :: charsOfLines (entryBodyLines img))
  have h4 : ("## Image: ").data.length = 10 := by decide
  rw [h4] at h3
  rw [h3, takeWhile_append_nl img.id.data _ hid, stringMk_data]

/-- Appending one entry to a fresh ledger yields a text that parses into
exactly the one section of that entry. -/
theorem getAll_one_entry (now : String) (img : Image)
    (hnow : ∀ c ∈ now.data, c ≠ '\n')
    (hid : img.id.data ≠ [])
    (hlines : ∀ l ∈ buildMarkdownEntryLines img, ∀ c ∈ l.data, c ≠ '\n') :
    GetAllImages (AppendToIndex (initialIndexContent now) img) =
      [parseSection (charsOfLines (sectionLines img))] := by
  have hdata : (AppendToIndex (initialIndexContent now) img).data =
      charsOfLines (["# Image Warehouse Index", "Last Updated: " ++ now, "", "---"] ++
        buildMarkdownEntryLines img) := by
    rw [charsOfLines_append]
    rfl
  have hall : ∀ l ∈ (["# Image Warehouse Index", "Last Updated: " ++ now, "", "---"] ++
      buildMarkdownEntryLines img), ∀ c ∈ l.data, c ≠ '\n' := by
    intro l hl
    rcases List.mem_append.mp hl with h1 | h1
    · simp only [List.mem_cons, List.not_mem_nil, or_false] at h1
      rcases h1 with h1 | h1 | h1 | h1
      · subst h1; decide
      · subst h1
        intro c hc
        rw [stringAppend_data] at hc
        rcases List.mem_append.mp hc with hc | hc
        · have hlit : ∀ d ∈ ("Last Updated: ").data, d ≠ '\n' := by decide
          exact hlit c hc
        · exact hnow c hc
      · subst h1; decide
      · subst h1; decide
    · exact hlines l h1
  have hpositions : headingPositions (AppendToIndex (initialIndexContent now) img).data =
      [(charsOfLines ["# Image Warehouse Index", "Last Updated: " ++ now, "", "---"]).length
        + 1] := by
    rw [hdata, headingPositions_lines _ hall, lineHeadingPositions_append]
    have hinit : lineHeadingPositions
        ["# Image Warehouse Index", "Last Updated: " ++ now, "", "---"] 0 = [] := by
      apply lineHeadingPositions_none
      intro l hl
      simp only [List.mem_cons, List.not_mem_nil, or_false] at hl
      rcases hl with h1 | h1 | h1 | h1
      · subst h1; decide
      · subst h1; exact headingLineB_append_false _ _ 'L' rfl (by decide)
      · subst h1; decide
      · subst h1; decide
    rw [hinit, List.nil_append, entry_lineHeadingPositions img _ hid, Nat.zero_add]
  have hdrop : (AppendToIndex (initialIndexContent now) img).data.drop
      ((charsOfLines ["# Image Warehouse Index", "Last Updated: " ++ now, "", "---"]).length
        + 1) = charsOfLines (sectionLines img) := by
    have hsplit : (AppendToIndex (initialIndexContent now) img).data =
        (charsOfLines ["# Image Warehouse Index", "Last Updated: " ++ now, "", "---"] ++
          ['\n']) ++ charsOfLines (sectionLines img) := by
      rw [hdata, charsOfLines_append]
      have hbm : charsOfLines (buildMarkdownEntryLines img) =
          '\n' :: charsOfLines (sectionLines img) := rfl
      rw [hbm]
      simp
    rw [hsplit]
    have h3 := List.drop_left
      (charsOfLines ["# Image Warehouse Index", "Last Updated: " ++ now, "", "---"] ++ ['\n'])
      (charsOfLines (sectionLines img))
    have h4 : (charsOfLines ["# Image Warehouse Index", "Last Updated: " ++ now, "", "---"]
        ++ ['\n']).length =
        (charsOfLines ["# Image Warehouse Index", "Last Updated: " ++ now, "", "---"]).length
          + 1 := by
      simp
    rw [h4] at h3
    exact h3
  rw [GetAllImages, hpositions]
  show List.map parseSection [(AppendToIndex (initialIndexContent now) img).data.drop
    ((charsOfLines ["# Image Warehouse Index", "Last Updated: " ++ now, "", "---"]).length
      + 1)] = _
  rw [hdrop]
  rfl

/-- C4 counterexample: the round-trip is NOT exact for every record. The
record with title `"Padded "` (trailing space) serializes into the ledger,
but GetAllImages recovers the TrimSpace-normalized `"Padded"`, so the parsed
title differs from the original. -/
theorem C4_counterexample_trailing_space_title :
    (GetAllImages (AppendToIndex (initialIndexContent "2024-01-01 00:00:00")
      c4CexImage)).map (fun m => m.title) ≠ [c4CexImage.title] := by
  rw [getAll_one_entry "2024-01-01 00:00:00" c4CexImage (by decide) (by decide) (by decide)]
  decide

/-- Round-trip of a benign 2D record: append to a fresh ledger, parse back,
recover id, title, artist, category and the manual tag list. -/
theorem round_trip_2D (img : Image) (now : String)
    (hb : benign2D img) (hnow : ∀ c ∈ now.data, c ≠ '\n') :
    (GetAllImages (AppendToIndex (initialIndexContent now) img)).map
      (fun m => (m.id, m.title, m.artist, m.category, m.tags)) =
      [(img.id, img.title, img.artist, img.category, img.manualTags)] := by
  have hidnl : ∀ c ∈ img.id.data, c ≠ '\n' := fun c hc => (hb.2.1 c hc).1
  have hidne : img.id.data ≠ [] := hb.2.2.1
  rw [getAll_one_entry now img hnow hidne (entryLines_noNl img hb)]
  rw [List.map_cons, List.map_nil]
  simp only [parseSection]
  rw [section_id img hidnl, extract2D_title img hb, extract2D_artist img hb,
    extract2D_category img hb]
  by_cases hne : img.manualTags = []
  · rw [extract2D_tags_absent img hb hne]
    simp [hne]
  · rw [extract2D_tags_present img hb hne]
    have htags : ∀ t ∈ img.manualTags, goodTag t :=
      hb.2.2.2.2.2.2.2.2.2.2.2.2.1
    have hsep : ∀ t ∈ img.manualTags, containsCommaSpace t.data = false :=
      fun t ht => (htags t ht).2
    have hgf : ∀ t ∈ img.manualTags, goodField t := fun t ht => (htags t ht).1
    have hjne : joinComma img.manualTags ≠ "" := by
      intro h
      exact (joinComma_good img.manualTags hne hgf).1 (congrArg String.data h)
    rw [if_pos hjne, splitCommaSpace_joinComma img.manualTags hne hsep]

/-- The scanner finds a well-shaped field line in any line list equal to a
skippable prefix, the field line and a tail. -/
theorem ffc_found_value_eq (pat : List Char) (hp : pat.head? = some '*')
    (ls pre : List String) (hpre : ∀ l ∈ pre, Skippable pat l)
    (m v : String) (post : List String)
    (hls : ls = pre ++ (m ++ v) :: post)
    (hm : m.data = pat ++ [' '])
    (hv : v.data ≠ []) (htrim : trimChars v.data = v.data)
    (hnl : ∀ x ∈ v.data, x ≠ '\n') :
    findFieldCapture pat (charsOfLines ls) = some v.data := by
  subst hls
  exact ffc_found_value pat hp pre hpre m v post hm hv htrim hnl

/-- The heading, blank and five common field lines of a benign 3D section are
skippable for the Manual Tags pattern. -/
theorem skippable_lit7_tags3 (img : Image) (hb : benign3D img) :
    ∀ l ∈ [("## Image: " ++ img.id), "",
      "**Title:** " ++ img.title,
      "**Artist:** " ++ img.artist,
      "**Uploaded:** " ++ img.uploadedAt,
      "**Type:** " ++ img.typ,
      "**Category:** " ++ img.category],
      Skippable (fieldPattern "Manual Tags") l := by
  obtain ⟨h3, hid, hidne, ⟨htnl, _, _⟩, ⟨hanl, _, _⟩, ⟨hcnl, _, _⟩, hu, hrest⟩ := hb
  intro l hl
  simp only [List.mem_cons, List.not_mem_nil, or_false] at hl
  rcases hl with h | h | h | h | h | h | h
  · subst h; exact skippable_heading _ img hid
  · subst h; exact skippable_noStar _ "" (by decide)
  · subst h
    exact skippable_marker _ "**Title:** " img.title (by decide)
      (fun c hc => (htnl c hc).2)
  · subst h
    exact skippable_marker _ "**Artist:** " img.artist (by decide)
      (fun c hc => (hanl c hc).2)
  · subst h
    exact skippable_marker _ "**Uploaded:** " img.uploadedAt (by decide)
      (fun c hc => (hu c hc).2)
  · subst h
    rw [h3]
    exact skippable_marker _ "**Type:** " imageType3D (by decide) (by decide)
  · subst h
    exact skippable_marker _ "**Category:** " img.category (by decide)
      (fun c hc => (hcnl c hc).2)

/-- The 3D kind lines of a benign 3D record are skippable for the Manual Tags
pattern. -/
theorem skippable_kind3_tags (img : Image) (hb : benign3D img) :
    ∀ l ∈ kindLines img, Skippable (fieldPattern "Manual Tags") l := by
  obtain ⟨h3, hid, hidne, hT, hA, hC, hu, hfold, hmfp, hmfn, htot, hlen, hviews,
    htags, hai⟩ := hb
  have hk : kindLines img =
      ["**Folder Path:** " ++ img.folderPath] ++
      (if img.modelFilePath ≠ "" then
        ["**Model File:** " ++ img.modelFilePath,
         "**Model Filename:** " ++ img.modelFilename] else []) ++
      ["**Views:**"] ++
      img.views.map (fun v => "- " ++ (v.1 ++ (": " ++ v.2))) ++
      ["**Total File Size:** " ++
        (img.totalFileSizeMB ++ (" MB (" ++ (toString img.views.length ++ " views)")))] := by
    rw [kindLines, if_neg (by rw [h3]; decide), if_pos h3]
  intro l hl
  rw [hk] at hl
  rcases List.mem_append.mp hl with h | h
  · rcases List.mem_append.mp h with h | h
    · rcases List.mem_append.mp h with h | h
      · rcases List.mem_append.mp h with h | h
        · simp only [List.mem_singleton] at h
          subst h
          exact skippable_marker _ "**Folder Path:** " img.folderPath (by decide)
            (fun c hc => (hfold c hc).2)
        · by_cases hm : img.modelFilePath ≠ ""
          · rw [if_pos hm] at h
            simp only [List.mem_cons, List.not_mem_nil, or_false] at h
            rcases h with h | h
            · subst h
              exact skippable_marker _ "**Model File:** " img.modelFilePath (by decide)
                (fun c hc => (hmfp c hc).2)
            · subst h
              exact skippable_marker _ "**Model Filename:** " img.modelFilename (by decide)
                (fun c hc => (hmfn c hc).2)
          · rw [if_neg hm] at h
            simp at h
      · simp only [List.mem_singleton] at h
        subst h
        exact skippable_full _ "**Views:**" (by decide)
    · rcases List.mem_map.mp h with ⟨v, hv, he⟩
      subst he
      apply skippable_noStar
      intro c hc
      rw [stringAppend_data, stringAppend_data, stringAppend_data] at hc
      rcases List.mem_append.mp hc with hc | hc
      · have : ∀ d ∈ ("- ").data, d ≠ '*' := by decide
        exact this c hc
      · rcases List.mem_append.mp hc with hc | hc
        · exact ((hviews v hv).1 c hc).2
        · rcases List.mem_append.mp hc with hc | hc
          · have : ∀ d ∈ (": ").data, d ≠ '*' := by decide
            exact this c hc
          · exact ((hviews v hv).2 c hc).2
  · simp only [List.mem_singleton] at h
    subst h
    apply skippable_marker _ "**Total File Size:** "
      (img.totalFileSizeMB ++ (" MB (" ++ (toString img.views.length ++ " views)")))
      (by decide)
    intro c hc
    rw [stringAppend_data, stringAppend_data, stringAppend_data] at hc
    rcases List.mem_append.mp hc with hc | hc
    · exact (htot c hc).2
    · rcases List.mem_append.mp hc with hc | hc
      · have : ∀ d ∈ (" MB (").data, d ≠ '*' := by decide
        exact this c hc
      · rcases List.mem_append.mp hc with hc | hc
        · exact (hlen c hc).2
        · have : ∀ d ∈ (" views)").data, d ≠ '*' := by decide
          exact this c hc

/-- Title extraction from a benign 3D section. -/
theorem extract3D_title (img : Image) (hb : benign3D img) :
    extractField (charsOfLines (sectionLines img)) "Title" = img.title := by
  obtain ⟨h3, hid, hidne, ⟨htnl, htne, httr⟩, hrest⟩ := hb
  apply extractField_of_found _ _ img.title _ httr
  apply ffc_found_value_eq (fieldPattern "Title") (by decide) (sectionLines img)
    ["## Image: " ++ img.id, ""]
    (by
      intro l hl
      simp only [List.mem_cons, List.not_mem_nil, or_false] at hl
      rcases hl with h | h
      · subst h; exact skippable_heading _ img hid
      · subst h; exact skippable_noStar _ "" (by decide))
    "**Title:** " img.title
    (["**Artist:** " ++ img.artist,
      "**Uploaded:** " ++ img.uploadedAt,
      "**Type:** " ++ img.typ,
      "**Category:** " ++ img.category] ++
      (kindLines img ++ (tagsLines img ++ (aiBlockLines img.aiAnalysis ++ ["", "---"]))))
    (by
      rw [sectionLines, entryBodyLines]
      simp only [commonFieldLines, List.append_assoc, List.cons_append, List.nil_append])
    (by decide) htne httr (fun x hx => (htnl x hx).1)

/-- Artist extraction from a benign 3D section. -/
theorem extract3D_artist (img : Image) (hb : benign3D img) :
    extractField (charsOfLines (sectionLines img)) "Artist" = img.artist := by
  obtain ⟨h3, hid, hidne, ⟨htnl, htne, httr⟩, ⟨hanl, hane, hatr⟩, hrest⟩ := hb
  apply extractField_of_found _ _ img.artist _ hatr
  apply ffc_found_value_eq (fieldPattern "Artist") (by decide) (sectionLines img)
    ["## Image: " ++ img.id, "", "**Title:** " ++ img.title]
    (by
      intro l hl
      simp only [List.mem_cons, List.not_mem_nil, or_false] at hl
      rcases hl with h | h | h
      · subst h; exact skippable_heading _ img hid
      · subst h; exact skippable_noStar _ "" (by decide)
      · subst h
        exact skippable_marker _ "**Title:** " img.title (by decide)
          (fun c hc => (htnl c hc).2))
    "**Artist:** " img.artist
    (["**Uploaded:** " ++ img.uploadedAt,
      "**Type:** " ++ img.typ,
      "**Category:** " ++ img.category] ++
      (kindLines img ++ (tagsLines img ++ (aiBlockLines img.aiAnalysis ++ ["", "---"]))))
    (by
      rw [sectionLines, entryBodyLines]
      simp only [commonFieldLines, List.append_assoc, List.cons_append, List.nil_append])
    (by decide) hane hatr (fun x hx => (hanl x hx).1)

/-- Category extraction from a benign 3D section. -/
theorem extract3D_category (img : Image) (hb : benign3D img) :
    extractField (charsOfLines (sectionLines img)) "Category" = img.category := by
  obtain ⟨h3, hid, hidne, ⟨htnl, htne, httr⟩, ⟨hanl, hane, hatr⟩,
    ⟨hcnl, hcne, hctr⟩, hunl, hrest⟩ := hb
  apply extractField_of_found _ _ img.category _ hctr
  apply ffc_found_value_eq (fieldPattern "Category") (by decide) (sectionLines img)
    ["## Image: " ++ img.id, "", "**Title:** " ++ img.title,
     "**Artist:** " ++ img.artist, "**Uploaded:** " ++ img.uploadedAt,
     "**Type:** " ++ img.typ]
    (by
      intro l hl
      simp only [List.mem_cons, List.not_mem_nil, or_false] at hl
      rcases hl with h | h | h | h | h | h
      · subst h; exact skippable_heading _ img hid
      · subst h; exact skippable_noStar _ "" (by decide)
      · subst h
        exact skippable_marker _ "**Title:** " img.title (by decide)
          (fun c hc => (htnl c hc).2)
      · subst h
        exact skippable_marker _ "**Artist:** " img.artist (by decide)
          (fun c hc => (hanl c hc).2)
      · subst h
        exact skippable_marker _ "**Uploaded:** " img.uploadedAt (by decide)
          (fun c hc => (hunl c hc).2)
      · subst h
        rw [h3]
        exact skippable_marker _ "**Type:** " imageType3D (by decide) (by decide))
    "**Category:** " img.category
    ((kindLines img ++ (tagsLines img ++ (aiBlockLines img.aiAnalysis ++ ["", "---"]))))
    (by
      rw [sectionLines, entryBodyLines]
      simp only [commonFieldLines, List.append_assoc, List.cons_append, List.nil_append])
    (by decide) hcne hctr (fun x hx => (hcnl x hx).1)

/-- Manual Tags extraction from a benign 3D section with tags. -/
theorem extract3D_tags_present (img : Image) (hb : benign3D img)
    (hne : img.manualTags ≠ []) :
    extractField (charsOfLines (sectionLines img)) "Manual Tags" =
      joinComma img.manualTags := by
  have hlit := skippable_lit7_tags3 img hb
  have hkind := skippable_kind3_tags img hb
  obtain ⟨h3, hid, hidne, hT, hA, hC, hu, hfold, hmfp, hmfn, htot, hlen, hviews,
    htags, haiB⟩ := hb
  have hgf : ∀ t ∈ img.manualTags, goodField t := fun t ht => (htags t ht).1
  obtain ⟨hjne, hjh, hjl⟩ := joinComma_good img.manualTags hne hgf
  have hjtrim := trimChars_eq_self (joinComma img.manualTags).data hjh hjl
  have hjnl : ∀ c ∈ (joinComma img.manualTags).data, c ≠ '\n' := by
    intro c hc
    rcases mem_joinComma img.manualTags c hc with ⟨t, ht, htc⟩ | h | h
    · exact ((hgf t ht).1 c htc).1
    · subst h; decide
    · subst h; decide
  have htl : tagsLines img = ["", "**Manual Tags:** " ++ joinComma img.manualTags] := by
    unfold tagsLines
    rw [if_pos (List.length_pos.mpr hne)]
  apply extractField_of_found _ _ (joinComma img.manualTags) _ hjtrim
  apply ffc_found_value_eq (fieldPattern "Manual Tags") (by decide) (sectionLines img)
    ([("## Image: " ++ img.id), "",
      "**Title:** " ++ img.title,
      "**Artist:** " ++ img.artist,
      "**Uploaded:** " ++ img.uploadedAt,
      "**Type:** " ++ img.typ,
      "**Category:** " ++ img.category] ++ (kindLines img ++ [""]))
    (by
      intro l hl
      rcases List.mem_append.mp hl with h | h
      · exact hlit l h
      · rcases List.mem_append.mp h with h | h
        · exact hkind l h
        · simp only [List.mem_cons, List.not_mem_nil, or_false] at h
          subst h; exact skippable_noStar _ "" (by decide))
    "**Manual Tags:** " (joinComma img.manualTags)
    (aiBlockLines img.aiAnalysis ++ ["", "---"])
    (by
      rw [sectionLines, entryBodyLines, htl]
      simp only [commonFieldLines, List.append_assoc, List.cons_append, List.nil_append])
    (by decide) hjne hjtrim hjnl

/-- Manual Tags extraction from a benign 3D section without tags. -/
theorem extract3D_tags_absent (img : Image) (hb : benign3D img)
    (hno : img.manualTags = []) :
    extractField (charsOfLines (sectionLines img)) "Manual Tags" = "" := by
  have hlit := skippable_lit7_tags3 img hb
  have hkind := skippable_kind3_tags img hb
  have haiskip := skippable_ai_tags img.aiAnalysis
    hb.2.2.2.2.2.2.2.2.2.2.2.2.2.2
  have htl : tagsLines img = [] := by
    unfold tagsLines
    rw [hno]
    rfl
  apply extractField_of_none
  apply ffc_lines_none (fieldPattern "Manual Tags") (by decide)
  intro l hl
  rw [sectionLines] at hl
  simp only [List.mem_cons] at hl
  rcases hl with h | h
  · subst h
    exact hlit _ (by simp)
  · have h5 : l ∈ ((((([""] ++ commonFieldLines img) ++ kindLines img) ++ tagsLines img) ++
        aiBlockLines img.aiAnalysis) ++ ["", "---"]) := h
    rcases List.mem_append.mp h5 with h6 | h6
    · rcases List.mem_append.mp h6 with h6 | h6
      · rcases List.mem_append.mp h6 with h6 | h6
        · rcases List.mem_append.mp h6 with h6 | h6
          · rcases List.mem_append.mp h6 with h6 | h6
            · simp only [List.mem_singleton] at h6
              subst h6
              exact skippable_noStar _ "" (by decide)
            · have h7 : l ∈ ["## Image: " ++ img.id, ""] ++ commonFieldLines img :=
                List.mem_append.mpr (Or.inr h6)
              exact hlit l h7
          · exact hkind l h6
        · rw [htl] at h6
          simp at h6
      · exact haiskip l h6
    · simp only [List.mem_cons, List.not_mem_nil, or_false] at h6
      rcases h6 with h6 | h6
      · subst h6; exact skippable_noStar _ "" (by decide)
      · subst h6; exact skippable_noStar _ "---" (by decide)

/-- Every serialized line of a benign 3D entry is newline-free. -/
theorem entryLines_noNl3 (img : Image) (hb : benign3D img) :
    ∀ l ∈ buildMarkdownEntryLines img, ∀ c ∈ l.data, c ≠ '\n' := by
  obtain ⟨h3, hid, hidne, ⟨htnl, _, _⟩, ⟨hanl, _, _⟩, ⟨hcnl, _, _⟩,
    hu, hfold, hmfp, hmfn, htot, hlen, hviews, htags, haiB⟩ := hb
  intro l hl
  rw [buildMarkdownEntryLines] at hl
  simp only [List.mem_cons] at hl
  rcases hl with h | h | h
  · subst h; decide
  · subst h
    exact noNl_append2 "## Image: " img.id (by decide) (fun c hc => (hid c hc).1)
  · have h5 : l ∈ (((([""] ++ commonFieldLines img) ++ kindLines img) ++ tagsLines img) ++
        aiBlockLines img.aiAnalysis) ++ ["", "---"] := h
    rcases List.mem_append.mp h5 with h6 | h6
    · rcases List.mem_append.mp h6 with h6 | h6
      · rcases List.mem_append.mp h6 with h6 | h6
        · rcases List.mem_append.mp h6 with h6 | h6
          · rcases List.mem_append.mp h6 with h6 | h6
            · simp only [List.mem_singleton] at h6
              subst h6; decide
            · simp only [commonFieldLines, List.mem_cons, List.not_mem_nil, or_false] at h6
              rcases h6 with h6 | h6 | h6 | h6 | h6
              · subst h6
                exact noNl_append2 _ _ (by decide) (fun c hc => (htnl c hc).1)
              · subst h6
                exact noNl_append2 _ _ (by decide) (fun c hc => (hanl c hc).1)
              · subst h6
                exact noNl_append2 _ _ (by decide) (fun c hc => (hu c hc).1)
              · subst h6
                rw [h3]
                exact noNl_append2 _ _ (by decide) (by decide)
              · subst h6
                exact noNl_append2 _ _ (by decide) (fun c hc => (hcnl c hc).1)
          · rw [kindLines, if_neg (by rw [h3]; decide), if_pos h3] at h6
            rcases List.mem_append.mp h6 with h7 | h7
            · rcases List.mem_append.mp h7 with h7 | h7
              · rcases List.mem_append.mp h7 with h7 | h7
                · rcases List.mem_append.mp h7 with h7 | h7
                  · simp only [List.mem_singleton] at h7
                    subst h7
                    exact noNl_append2 _ _ (by decide) (fun c hc => (hfold c hc).1)
                  · by_cases hm : img.modelFilePath ≠ ""
                    · rw [if_pos hm] at h7
                      simp only [List.mem_cons, List.not_mem_nil, or_false] at h7
                      rcases h7 with h7 | h7
                      · subst h7
                        exact noNl_append2 _ _ (by decide) (fun c hc => (hmfp c hc).1)
                      · subst h7
                        exact noNl_append2 _ _ (by decide) (fun c hc => (hmfn c hc).1)
                    · rw [if_neg hm] at h7
                      simp at h7
                · simp only [List.mem_singleton] at h7
                  subst h7; decide
              · rcases List.mem_map.mp h7 with ⟨v, hv, he⟩
                subst he
                intro c hc
                rw [stringAppend_data, stringAppend_data, stringAppend_data] at hc
                rcases List.mem_append.mp hc with hc | hc
                · have : ∀ d ∈ ("- ").data, d ≠ '\n' := by decide
                  exact this c hc
                · rcases List.mem_append.mp hc with hc | hc
                  · exact ((hviews v hv).1 c hc).1
                  · rcases List.mem_append.mp hc with hc | hc
                    · have : ∀ d ∈ (": ").data, d ≠ '\n' := by decide
                      exact this c hc
                    · exact ((hviews v hv).2 c hc).1
            · simp only [List.mem_singleton] at h7
              subst h7
              apply noNl_append2 _ _ (by decide)
              intro c hc
              rw [stringAppend_data, stringAppend_data] at hc
              rcases List.mem_append.mp hc with hc | hc
              · exact (htot c hc).1
              · rcases List.mem_append.mp hc with hc | hc
                · have : ∀ d ∈ (" MB (").data, d ≠ '\n' := by decide
                  exact this c hc
                · rcases List.mem_append.mp hc with hc | hc
                  · exact (hlen c hc).1
                  · have : ∀ d ∈ (" views)").data, d ≠ '\n' := by decide
                    exact this c hc
        · by_cases hpos : 0 < img.manualTags.length
          · rw [tagsLines, if_pos hpos] at h6
            simp only [List.mem_cons, List.not_mem_nil, or_false] at h6
            rcases h6 with h6 | h6
            · subst h6; decide
            · subst h6
              apply noNl_append2 _ _ (by decide)
              exact noNl_joinComma img.manualTags
                (fun t ht c hc => ((htags t ht).1.1 c hc).1)
          · rw [tagsLines, if_neg hpos] at h6
            simp at h6
      · exact ai_noNl img.aiAnalysis haiB l h6
    · simp only [List.mem_cons, List.not_mem_nil, or_false] at h6
      rcases h6 with h6 | h6
      · subst h6; decide
      · subst h6; decide

/-- Round-trip of a benign multi-view 3D record: append to a fresh ledger,
parse back, recover id, title, artist, category and the manual tag list. -/
theorem round_trip_3D (img : Image) (now : String)
    (hb : benign3D img) (hnow : ∀ c ∈ now.data, c ≠ '\n') :
    (GetAllImages (AppendToIndex (initialIndexContent now) img)).map
      (fun m => (m.id, m.title, m.artist, m.category, m.tags)) =
      [(img.id, img.title, img.artist, img.category, img.manualTags)] := by
  have hidnl : ∀ c ∈ img.id.data, c ≠ '\n' := fun c hc => (hb.2.1 c hc).1
  have hidne : img.id.data ≠ [] := hb.2.2.1
  rw [getAll_one_entry now img hnow hidne (entryLines_noNl3 img hb)]
  rw [List.map_cons, List.map_nil]
  simp only [parseSection]
  rw [section_id img hidnl, extract3D_title img hb, extract3D_artist img hb,
    extract3D_category img hb]
  by_cases hne : img.manualTags = []
  · rw [extract3D_tags_absent img hb hne]
    simp [hne]
  · rw [extract3D_tags_present img hb hne]
    have htags : ∀ t ∈ img.manualTags, goodTag t :=
      hb.2.2.2.2.2.2.2.2.2.2.2.2.2.1
    have hsep : ∀ t ∈ img.manualTags, containsCommaSpace t.data = false :=
      fun t ht => (htags t ht).2
    have hgf : ∀ t ∈ img.manualTags, goodField t := fun t ht => (htags t ht).1
    have hjne : joinComma img.manualTags ≠ "" := by
      intro h
      exact (joinComma_good img.manualTags hne hgf).1 (congrArg String.data h)
    rw [if_pos hjne, splitCommaSpace_joinComma img.manualTags hne hsep]

/-- C4 (amended): serializing a benign AssetRecord — 2D or multi-view 3D;
fields newline- and asterisk-free, title/artist/category non-empty and
TrimSpace-invariant, tags separator-free — into a fresh ledger and parsing it
back with GetAllImages recovers id, title, artist, category and the manual
tag list exactly. The original universal claim fails for TrimSpace-altered
values (see the counterexample). -/
theorem C4_round_trip_benign_fields (img : Image) (now : String)
    (hb : benign2D img ∨ benign3D img) (hnow : ∀ c ∈ now.data, c ≠ '\n') :
    (GetAllImages (AppendToIndex (initialIndexContent now) img)).map
      (fun m => (m.id, m.title, m.artist, m.category, m.tags)) =
      [(img.id, img.title, img.artist, img.category, img.manualTags)] := by
  rcases hb with hb | hb
  · exact round_trip_2D img now hb hnow
  · exact round_trip_3D img now hb hnow

/-- C4 witness: a concrete benign 2D record and a concrete benign multi-view
3D record both round-trip exactly through the ledger. -/
theorem C4_witness :
    ((GetAllImages (AppendToIndex (initialIndexContent "2024-01-01 00:00:00")
      c4WitnessImage)).map (fun m => (m.id, m.title, m.artist, m.category, m.tags)) =
      [(c4WitnessImage.id, c4WitnessImage.title, c4WitnessImage.artist,
        c4WitnessImage.category, c4WitnessImage.manualTags)]) ∧
    ((GetAllImages (AppendToIndex (initialIndexContent "2024-01-02 00:00:00")
      c4Witness3DImage)).map (fun m => (m.id, m.title, m.artist, m.category, m.tags)) =
      [(c4Witness3DImage.id, c4Witness3DImage.title, c4Witness3DImage.artist,
        c4Witness3DImage.category, c4Witness3DImage.manualTags)]) :=
  ⟨C4_round_trip_benign_fields c4WitnessImage "2024-01-01 00:00:00"
    (Or.inl (by
      unfold benign2D goodTag goodField noNlStar
      exact ⟨rfl, by decide, by decide, by decide, by decide, by decide, by decide,
        by decide, by decide, by decide, by decide, by decide, by decide, trivial⟩))
    (by decide),
   C4_round_trip_benign_fields c4Witness3DImage "2024-01-02 00:00:00"
    (Or.inr (by
      unfold benign3D goodTag goodField noNlStar
      exact ⟨rfl, by decide, by decide, by decide, by decide, by decide, by decide,
        by decide, by decide, by decide, by decide, by decide, by decide, by decide,
        trivial⟩))
    (by decide)⟩
